import Mathlib

/-!
Verification of the recap-ingestion pipeline of cadence-web
(`app/api/analyze-day/route.ts`): time-string parsing, the temporal sleep
normalizer, the previous-day sleep patch, and the persistence sequence of the
POST handler.  Times are modelled as Lean strings (lists of characters),
minute values as integers, and hour metrics as rationals.  The persistence
store (the `days`, `metrics` and `events` tables, single-owner) is modelled as
a list of day records; the `metrics` table, keyed one-to-one by `day_id`, is
collapsed into an optional field of the day record, since every code path
either reads metrics through the day row or upserts them keyed by the day id
and immediately relinks `days.metrics_id`.
-/

/- ------------------------------------------------------------------ -/
/- JavaScript string and number primitives, modelled on lists of chars -/
/- ------------------------------------------------------------------ -/

/-- The decimal digit character for `k` (`0 ≤ k ≤ 9` at every use site). -/
def digitChar (k : Nat) : Char := Char.ofNat (48 + k)

/-- Decimal digit characters of `n`, as produced by JavaScript
`Number.prototype.toString` for the values reachable here (`n ≤ 99`:
hours, minutes, months and days are clamped to two digits). -/
def natToDecChars (n : Nat) : List Char :=
  if n < 10 then [digitChar n] else [digitChar (n / 10), digitChar (n % 10)]

/-- Decimal digit characters of a year `y ≤ 9999`, as rendered (zero padded to
four digits) by `Date.prototype.toISOString`. -/
def natToFourChars (y : Nat) : List Char :=
  [digitChar (y / 1000 % 10), digitChar (y / 100 % 10),
   digitChar (y / 10 % 10), digitChar (y % 10)]

/-- Models JavaScript `String.prototype.padStart(2, "0")`. -/
def padTwo (cs : List Char) : List Char :=
  if cs.length < 2 then '0' :: cs else cs

/-- ASCII whitespace, as stripped by JavaScript number coercion. -/
def isWsChar (c : Char) : Bool := c = ' ' || c = '\t' || c = '\n' || c = '\r'

/-- Strip leading and trailing whitespace (JavaScript trimming before number
coercion). -/
def trimWs (cs : List Char) : List Char :=
  ((cs.dropWhile isWsChar).reverse.dropWhile isWsChar).reverse

/-- Models JavaScript `String.prototype.split` with a one-character
separator: `"a:b:c" ↦ ["a","b","c"]`, `":" ↦ ["",""]`, `"" ↦ [""]`. -/
def splitOnChar (sep : Char) : List Char → List (List Char)
  | [] => [[]]
  | c :: rest =>
    if c = sep then [] :: splitOnChar sep rest
    else
      match splitOnChar sep rest with
      | [] => [[c]]
      | g :: gs => (c :: g) :: gs

/-- Value of a nonempty all-digit character list, read in base 10. -/
def parseDigits (cs : List Char) : Option Nat :=
  if cs.isEmpty then none
  else if cs.all Char.isDigit then
    some (cs.foldl (fun a c => 10 * a + (c.toNat - 48)) 0)
  else none

/-- The integer fragment of JavaScript `Number(string)` coercion followed by
the source's `Number.isFinite` check: ASCII whitespace is trimmed, the empty
string coerces to `0`, and an optional sign followed by decimal digits is an
integer.  Strings outside this fragment are mapped to `none`.  The fragment
is a restriction, not the whole coercion: JavaScript also accepts fractional,
exponent and hex/octal/binary numerals and trims Unicode whitespace, which
`jsFiniteNumber` below models in full; every string this fragment accepts is
accepted by the full model with the same value (`jsNumberChars_imp_finite`).
The pipeline model uses this integer fragment so that minute values are
integers; the theorems below fix parsed values by hypothesis, and the parse
boundary itself is analysed against the full model. -/
def jsNumberChars (cs : List Char) : Option Int :=
  match trimWs cs with
  | [] => some 0
  | '-' :: rest => (parseDigits rest).map (fun n => -(n : Int))
  | '+' :: rest => (parseDigits rest).map (fun n => (n : Int))
  | other => (parseDigits other).map (fun n => (n : Int))

/-- `jsNumberChars` on a Lean string. -/
def jsNumber (s : String) : Option Int := jsNumberChars s.data

/- ------------------------------------------------------------------ -/
/- Full JavaScript number coercion (ECMAScript StringNumericLiteral)   -/
/- ------------------------------------------------------------------ -/

/-- ECMAScript WhiteSpace and LineTerminator code points, as trimmed by
string-to-number coercion: TAB, LF, VT, FF, CR, SP, NBSP, Ogham space mark,
the en-quad to hair-space range, LS, PS, NNBSP, MMSP, ideographic space and
ZWNBSP. -/
def isJsWsChar (c : Char) : Bool :=
  c.toNat = 0x9 || c.toNat = 0xA || c.toNat = 0xB || c.toNat = 0xC ||
  c.toNat = 0xD || c.toNat = 0x20 || c.toNat = 0xA0 || c.toNat = 0x1680 ||
  (0x2000 ≤ c.toNat && c.toNat ≤ 0x200A) || c.toNat = 0x2028 ||
  c.toNat = 0x2029 || c.toNat = 0x202F || c.toNat = 0x205F ||
  c.toNat = 0x3000 || c.toNat = 0xFEFF

/-- Strip leading and trailing ECMAScript whitespace (the trimming JavaScript
number coercion performs on the full whitespace set). -/
def trimWsJs (cs : List Char) : List Char :=
  ((cs.dropWhile isJsWsChar).reverse.dropWhile isJsWsChar).reverse

/-- Value of a radix digit, accepting `0-9`, `a-f` and `A-F` (`99` on any
other character, which fails every radix bound used below). -/
def radixDigitVal (c : Char) : Nat :=
  if c.isDigit then c.toNat - 48
  else if 'a' ≤ c && c ≤ 'f' then c.toNat - 87
  else if 'A' ≤ c && c ≤ 'F' then c.toNat - 55
  else 99

/-- Digits of a `0x`/`0o`/`0b` numeral, read in base `b`. -/
def parseRadixDigits (b : Nat) (cs : List Char) : Option ℚ :=
  if cs.isEmpty then none
  else if cs.all (fun c => radixDigitVal c < b) then
    some ((cs.foldl (fun a c => b * a + radixDigitVal c) 0 : Nat) : ℚ)
  else none

/-- The `0x`/`0X`, `0o`/`0O` or `0b`/`0B` start of a non-decimal numeral,
with its base (ECMAScript NonDecimalIntegerLiteral; no sign is allowed). -/
def nonDecimalRadix : List Char → Option (Nat × List Char)
  | '0' :: c :: rest =>
    if c = 'x' ∨ c = 'X' then some (16, rest)
    else if c = 'o' ∨ c = 'O' then some (8, rest)
    else if c = 'b' ∨ c = 'B' then some (2, rest)
    else none
  | _ => none

/-- Split a decimal numeral at its exponent marker, the first `e` or `E`:
mantissa characters, and the exponent characters when a marker is present. -/
def splitExponent : List Char → List Char × Option (List Char)
  | [] => ([], none)
  | c :: rest =>
    if c = 'e' ∨ c = 'E' then ([], some rest)
    else
      let r := splitExponent rest
      (c :: r.1, r.2)

/-- An ECMAScript SignedInteger exponent: an optional sign followed by
decimal digits. -/
def parseSignedInt (cs : List Char) : Option Int :=
  match cs with
  | '+' :: rest => (parseDigits rest).map (fun n => (n : Int))
  | '-' :: rest => (parseDigits rest).map (fun n => -(n : Int))
  | _ => (parseDigits cs).map (fun n => (n : Int))

/-- The mantissa of a decimal numeral and its exact rational value: digits,
`digits.digits?` or `.digits` (at least one digit overall, and nothing but
digits around at most one point). -/
def parseMantissa (cs : List Char) : Option ℚ :=
  match splitOnChar '.' cs with
  | [intPart] =>
    if intPart.isEmpty then none
    else if intPart.all Char.isDigit then
      some ((intPart.foldl (fun a c => 10 * a + (c.toNat - 48)) 0 : Nat) : ℚ)
    else none
  | [intPart, fracPart] =>
    if intPart.isEmpty && fracPart.isEmpty then none
    else if intPart.all Char.isDigit && fracPart.all Char.isDigit then
      some (((intPart.foldl (fun a c => 10 * a + (c.toNat - 48)) 0 : Nat) : ℚ)
        + ((fracPart.foldl (fun a c => 10 * a + (c.toNat - 48)) 0 : Nat) : ℚ)
          / (10 : ℚ) ^ fracPart.length)
    else none
  | _ => none

/-- An unsigned decimal numeral with optional exponent part, as its exact
mathematical value.  `Infinity`, though grammatically a
StrUnsignedDecimalLiteral, has a value the source's `Number.isFinite` check
rejects, and every other string not matching the grammar coerces to NaN, so
both give `none` here (the letters of `Infinity` fail the digit tests). -/
def parseStrUnsignedDecimal (cs : List Char) : Option ℚ :=
  match splitExponent cs with
  | (mantissa, none) => parseMantissa mantissa
  | (mantissa, some expPart) =>
    (parseMantissa mantissa).bind (fun q =>
      (parseSignedInt expPart).map (fun ex => q * (10 : ℚ) ^ ex))

/-- The finite value of JavaScript `Number(string)` coercion (the ECMAScript
StringNumericLiteral grammar) as observed through the source's
`Number.isFinite` guard: Unicode whitespace is trimmed, the empty string
coerces to `0`, an optionally signed decimal numeral with optional fraction
and exponent parts takes its mathematical value, and unsigned `0x`/`0o`/`0b`
numerals are read in their radix.  `none` stands for the values the guard
rejects: NaN from ill-formed strings, and `±Infinity`.  Values are exact
rationals; the final IEEE-754 rounding of the mathematical value to a double
is not modelled, so the model and JavaScript differ only on numerals whose
value a double cannot represent exactly and whose rounding crosses one of
the range bounds tested by a caller (more than about 15 significant decimal
digits, or a decimal exponent outside the double range). -/
def jsFiniteNumber (cs : List Char) : Option ℚ :=
  match trimWsJs cs with
  | [] => some 0
  | c :: rest =>
    if c = '+' then parseStrUnsignedDecimal rest
    else if c = '-' then (parseStrUnsignedDecimal rest).map (fun q => -q)
    else
      match nonDecimalRadix (c :: rest) with
      | some br => parseRadixDigits br.1 br.2
      | none => parseStrUnsignedDecimal (c :: rest)

/- ------------------------------------------------------------------ -/
/- parseTimeToMinutes and minutesToHHMM (route.ts lines 48-64)         -/
/- ------------------------------------------------------------------ -/

/-- Translation of `parseTimeToMinutes`: `!time` rejects the empty string,
the string is split on `":"`, the first two fields are number-coerced
(`undefined`, i.e. a missing second field, coerces to a non-finite value),
and the hour/minute are range checked. -/
def parseTimeToMinutes (time : String) : Option Int :=
  if time.data.isEmpty then none
  else
    let parts := splitOnChar ':' time.data
    let hN := jsNumberChars (parts.headD [])
    let mN := (parts.get? 1).bind jsNumberChars
    match hN, mN with
    | some h, some m =>
      if h < 0 ∨ h > 23 ∨ m < 0 ∨ m > 59 then none
      else some (h * 60 + m)
    | _, _ => none

/-- Translation of `parseTimeToMinutes` over the full finite number coercion
`jsFiniteNumber`: the faithful model of the source's parse boundary.  The
integer-valued `parseTimeToMinutes` above, used by the pipeline model, is a
restriction of this function (`parseTimeToMinutes_imp_num`): wherever it
parses, this function parses to the same value, and wherever this function
rejects, so does it. -/
def parseTimeToMinutesNum (time : String) : Option ℚ :=
  if time.data.isEmpty then none
  else
    let parts := splitOnChar ':' time.data
    let hN := jsFiniteNumber (parts.headD [])
    let mN := (parts.get? 1).bind jsFiniteNumber
    match hN, mN with
    | some h, some m =>
      if h < 0 ∨ h > 23 ∨ m < 0 ∨ m > 59 then none
      else some (h * 60 + m)
    | _, _ => none

/-- Translation of `minutesToHHMM`: clamp to `[0, 23*60+59]` (the clamped
value is a nonnegative integer, so the remaining arithmetic is on `Nat`),
then render `HH:MM` with two-digit zero padding. -/
def minutesToHHMM (totalMinutes : Int) : String :=
  let clamped := (max 0 (min totalMinutes (24 * 60 - 1))).toNat
  let h := clamped / 60
  let m := clamped % 60
  String.mk (padTwo (natToDecChars h) ++ ':' :: padTwo (natToDecChars m))

/- ------------------------------------------------------------------ -/
/- Data model of the candidate structured day (route.ts lines 13-36)   -/
/- ------------------------------------------------------------------ -/

structure DayEvent where
  label : String
  category : String
  startTime : String
  endTime : String
  notes : Option String
deriving DecidableEq, Repr

structure DayMetrics where
  productiveHours : ℚ
  neutralHours : ℚ
  wastedHours : ℚ
  sleepHours : ℚ
  focusBlocks : ℚ
  contextSwitches : ℚ
deriving DecidableEq, Repr

structure DayAnalysis where
  date : String
  events : List DayEvent
  summary : String
  metrics : DayMetrics
  suggestions : List String
deriving DecidableEq, Repr

structure SleepSegment where
  startMinutes : Int
  endMinutes : Int
deriving DecidableEq, Repr

structure PrevDaySleepSegment where
  startMinutes : Int
  endMinutes : Int
deriving DecidableEq, Repr

/- ------------------------------------------------------------------ -/
/- Temporal normalizer (route.ts lines 79-175)                         -/
/- ------------------------------------------------------------------ -/

/-- One iteration of the event loop of `normalizeSleepForDay`: the event's
contribution to the rewritten event list (`DAY_START = 0`, `DAY_END = 1440`)
and to the collected same-day sleep segments. -/
def normalizeSleepEvent (ev : DayEvent) : List DayEvent × List SleepSegment :=
  if ev.category ≠ "sleep" then ([ev], [])
  else
    match parseTimeToMinutes ev.startTime, parseTimeToMinutes ev.endTime with
    | some startM, some endM =>
      if startM ≤ endM then
        -- Same-day sleep (e.g. 01:00-08:00, or a nap 14:00-15:00)
        let clippedStart := max startM 0
        let clippedEnd := min endM (24 * 60)
        if clippedStart < clippedEnd then
          ([{ ev with startTime := minutesToHHMM clippedStart,
                      endTime := minutesToHHMM clippedEnd }],
           [{ startMinutes := clippedStart, endMinutes := clippedEnd }])
        else ([], [])
      else
        -- Cross-midnight sleep (e.g. 23:00-07:00): this date keeps 00:00-endM
        let clippedEnd := min endM (24 * 60)
        if 0 < clippedEnd then
          ([{ ev with startTime := minutesToHHMM 0,
                      endTime := minutesToHHMM clippedEnd }],
           [{ startMinutes := 0, endMinutes := clippedEnd }])
        else ([], [])
    | _, _ =>
      -- Keep it for the timeline, but it cannot be used for metrics
      ([ev], [])

/-- The event loop of `normalizeSleepForDay` over the whole event list,
accumulating the rewritten events and the sleep segments in order. -/
def normalizeSleepEvents : List DayEvent → List DayEvent × List SleepSegment
  | [] => ([], [])
  | ev :: rest =>
    let head := normalizeSleepEvent ev
    let tail := normalizeSleepEvents rest
    (head.1 ++ tail.1, head.2 ++ tail.2)

/-- Translation of `sleepSegments.reduce(...)`: the first segment with the
strictly smallest end time (`none` on an empty list, where the source skips
the reduction). -/
def selectMainSegment : List SleepSegment → Option SleepSegment
  | [] => none
  | s :: rest =>
    some (rest.foldl
      (fun earliest seg =>
        if seg.endMinutes < earliest.endMinutes then seg else earliest) s)

/-- Translation of `normalizeSleepForDay`: rewrite the events, then override
`metrics.sleepHours` with the duration of the main (earliest-ending) sleep
segment, or `0` when no segment was collected. -/
def normalizeSleepForDay (analysis : DayAnalysis) : DayAnalysis :=
  let r := normalizeSleepEvents analysis.events
  let sleepMinutesForThisDay : Int :=
    match selectMainSegment r.2 with
    | some mainSegment => max 0 (mainSegment.endMinutes - mainSegment.startMinutes)
    | none => 0
  let sleepHours : ℚ := (sleepMinutesForThisDay : ℚ) / 60
  { analysis with
      events := r.1,
      metrics := { analysis.metrics with sleepHours := sleepHours } }

/-- The same-day sleep-segment candidates the normalizer collects for a
candidate day. -/
def collectSleepSegments (analysis : DayAnalysis) : List SleepSegment :=
  (normalizeSleepEvents analysis.events).2

/- ------------------------------------------------------------------ -/
/- extractPrevDaySleepSegments (route.ts lines 188-206)                -/
/- ------------------------------------------------------------------ -/

/-- One iteration of the loop of `extractPrevDaySleepSegments`: a
cross-midnight sleep event contributes the previous-day segment
`[startM, 1440)`. -/
def extractPrevDaySleepSegment (ev : DayEvent) : List PrevDaySleepSegment :=
  if ev.category ≠ "sleep" then []
  else
    match parseTimeToMinutes ev.startTime, parseTimeToMinutes ev.endTime with
    | some startM, some endM =>
      if endM < startM then [{ startMinutes := startM, endMinutes := 24 * 60 }]
      else []
    | _, _ => []

/-- The loop of `extractPrevDaySleepSegments` over an event list. -/
def extractPrevSegsEvents : List DayEvent → List PrevDaySleepSegment
  | [] => []
  | ev :: rest => extractPrevDaySleepSegment ev ++ extractPrevSegsEvents rest

/-- Translation of `extractPrevDaySleepSegments`. -/
def extractPrevDaySleepSegments (raw : DayAnalysis) : List PrevDaySleepSegment :=
  extractPrevSegsEvents raw.events

/- ------------------------------------------------------------------ -/
/- getPreviousDateString (route.ts lines 208-212)                      -/
/- ------------------------------------------------------------------ -/

def isLeapYear (y : Nat) : Bool :=
  y % 4 = 0 && (y % 100 ≠ 0 || y % 400 = 0)

def daysInMonth (y m : Nat) : Nat :=
  if m = 2 then (if isLeapYear y then 29 else 28)
  else if m = 4 ∨ m = 6 ∨ m = 9 ∨ m = 11 then 30
  else 31

/-- Models the parsing done by `new Date(dateStr + "T00:00:00Z")` for an ISO
`YYYY-MM-DD` string: exact component widths, decimal digits, and in-range
month and day (an out-of-range ISO date yields an invalid `Date`). -/
def parseIsoDate (s : String) : Option (Nat × Nat × Nat) :=
  match splitOnChar '-' s.data with
  | [ys, ms, ds] =>
    if ys.length = 4 ∧ ms.length = 2 ∧ ds.length = 2 then
      match parseDigits ys, parseDigits ms, parseDigits ds with
      | some y, some m, some d =>
        if 1 ≤ m ∧ m ≤ 12 ∧ 1 ≤ d ∧ d ≤ daysInMonth y m then some (y, m, d)
        else none
      | _, _, _ => none
    else none
  | _ => none

/-- Civil predecessor of a valid calendar date, as computed by
`d.setUTCDate(d.getUTCDate() - 1)`. -/
def prevCivilDay : Nat × Nat × Nat → Nat × Nat × Nat
  | (y, m, d) =>
    if 2 ≤ d then (y, m, d - 1)
    else if 2 ≤ m then (y, m - 1, daysInMonth y (m - 1))
    else (y - 1, 12, 31)

/-- `YYYY-MM-DD` rendering of a date, as produced by
`toISOString().slice(0, 10)` for years up to 9999. -/
def formatIsoDate : Nat × Nat × Nat → String
  | (y, m, d) =>
    String.mk (natToFourChars y ++ '-' ::
      (padTwo (natToDecChars m) ++ '-' :: padTwo (natToDecChars d)))

/-- Translation of `getPreviousDateString`.  An ill-formed date string makes
`toISOString` throw in the source (the invalid `Date` propagates), modelled
here as `none`. -/
def getPreviousDateString (dateStr : String) : Option String :=
  (parseIsoDate dateStr).map (fun t => formatIsoDate (prevCivilDay t))

/- ------------------------------------------------------------------ -/
/- Persistence store model (single owner)                              -/
/- ------------------------------------------------------------------ -/

/-- A row of the `events` table (scoped to its day).  `start_time` and
`end_time` are nullable columns. -/
structure EventRow where
  label : String
  category : String
  startTime : Option String
  endTime : Option String
  notes : Option String
deriving DecidableEq, Repr

/-- A row of the `metrics` table (keyed one-to-one by its day).  All metric
columns are nullable. -/
structure MetricsRow where
  productive : Option ℚ
  neutral : Option ℚ
  wasted : Option ℚ
  sleep : Option ℚ
  focusBlocks : Option ℚ
  contextSwitches : Option ℚ
deriving DecidableEq, Repr

/-- A `days` row together with its dependent rows: its metrics row (the
`metrics_id` link and the `day_id`-keyed metrics table are collapsed into one
optional field) and its event rows.  The transcript column holds the ordered
submission history; the stub rows the patcher inserts store an empty
transcript, which the reader treats as the empty history. -/
structure DayRec where
  date : String
  transcript : List String
  summary : Option String
  suggestions : Option (List String)
  metrics : Option MetricsRow
  events : List EventRow
deriving DecidableEq, Repr

/-- The single-owner persistence store: whether the owner row exists in
`public.users`, and the day records. -/
structure Store where
  ownerExists : Bool
  days : List DayRec
deriving DecidableEq, Repr

def Store.getDay (s : Store) (date : String) : Option DayRec :=
  s.days.find? (fun d => d.date == date)

def Store.insertDay (s : Store) (d : DayRec) : Store :=
  { s with days := s.days ++ [d] }

def Store.modifyDay (s : Store) (date : String) (f : DayRec → DayRec) : Store :=
  { s with days := s.days.map (fun d => if d.date == date then f d else d) }

/-- The stub previous-day row inserted when the patch target does not exist
(`transcript: "", summary: null, suggestions: null`, no metrics, no events). -/
def stubDay (date : String) : DayRec :=
  { date := date, transcript := [], summary := none, suggestions := none,
    metrics := none, events := [] }

/- ------------------------------------------------------------------ -/
/- Fallible persistence steps                                          -/
/- ------------------------------------------------------------------ -/

/-- A store write that the persistence layer may fail: if the injected
failure names this step, the operation throws (the caught error carries the
store as committed so far); otherwise the write commits. -/
def stepWrite (failAt : Option String) (label : String) (f : Store → Store)
    (s : Store) : Except Store Store :=
  if failAt = some label then .error s else .ok (f s)

/-- A best-effort store write whose failure is logged but not propagated
(the carryover-event delete and insert in the source). -/
def stepWriteNonfatal (failAt : Option String) (label : String)
    (f : Store → Store) (s : Store) : Store :=
  if failAt = some label then s else f s

/- ------------------------------------------------------------------ -/
/- applyPrevDaySleepPatch (route.ts lines 220-369)                     -/
/- ------------------------------------------------------------------ -/

/-- The deterministic carryover label, encoding the target date. -/
def carryoverLabel (thisDate : String) : String :=
  "Sleep (carryover to " ++ thisDate ++ ")"

/-- `Math.min` over the segment starts (the segment list is nonempty at the
use site). -/
def earliestSegmentStart (seg0 : PrevDaySleepSegment)
    (segRest : List PrevDaySleepSegment) : Int :=
  segRest.foldl (fun acc seg => min acc seg.startMinutes) seg0.startMinutes

/-- The synthetic carryover event inserted at the end of the previous day. -/
def carryoverEvent (thisDate : String) (earliestStart : Int) : EventRow :=
  { label := carryoverLabel thisDate,
    category := "sleep",
    startTime := some (minutesToHHMM earliestStart),
    endTime := some (minutesToHHMM (24 * 60 - 1)),
    notes := some "Auto-filled sleep from night before this day" }

/-- Total extra sleep minutes carried to the previous day
(`segments.reduce((sum, seg) => sum + Math.max(0, end - start), 0)`). -/
def carriedExtraMinutes (segments : List PrevDaySleepSegment) : Int :=
  segments.foldl
    (fun sum seg => sum + max 0 (seg.endMinutes - seg.startMinutes)) 0

/-- Translation of `applyPrevDaySleepPatch` with an injectable failing step.
Steps, in source order: resolve the previous date (an invalid date throws
before any write); find or create the previous day row; read its metrics;
upsert the metrics row with `sleep_hours` increased additively (the source
reads the existing value through a truthiness test, so a null or zero value
contributes `0`); relink `days.metrics_id` when it was unset (a no-op in this
collapsed store); then delete-by-label and insert the carryover event, both
best-effort. -/
def applyPrevDaySleepPatchF (failAt : Option String) (store : Store)
    (thisDate : String) (segments : List PrevDaySleepSegment) :
    Except Store Store :=
  match segments with
  | [] => .ok store
  | seg0 :: segRest =>
    match getPreviousDateString thisDate with
    | none => .error store
    | some prevDate => do
      let found :=
        match store.getDay prevDate with
        | none => none
        | some prevRow => some prevRow.metrics
      let step1 : Except Store (Store × Option MetricsRow) :=
        match found with
        | none =>
          match stepWrite failAt "insertPrevDayStub"
              (fun s => s.insertDay (stubDay prevDate)) store with
          | .error s => .error s
          | .ok s => .ok (s, none)
        | some prevMetrics => .ok (store, prevMetrics)
      let r ← step1
      let store1 := r.1
      let prevMetrics := r.2
      let extraHours : ℚ := ((carriedExtraMinutes (seg0 :: segRest) : Int) : ℚ) / 60
      let newSleepHours : ℚ :=
        (match prevMetrics with
         | some m =>
           match m.sleep with
           | some q => if q = 0 then 0 else q
           | none => 0
         | none => 0) + extraHours
      let newMetrics : MetricsRow :=
        { productive := prevMetrics.bind (fun m => m.productive),
          neutral := prevMetrics.bind (fun m => m.neutral),
          wasted := prevMetrics.bind (fun m => m.wasted),
          sleep := some newSleepHours,
          focusBlocks := prevMetrics.bind (fun m => m.focusBlocks),
          contextSwitches := prevMetrics.bind (fun m => m.contextSwitches) }
      let store2 ← stepWrite failAt "upsertPrevMetrics"
        (fun s => s.modifyDay prevDate (fun d => { d with metrics := some newMetrics }))
        store1
      let store3 ←
        if prevMetrics.isNone then
          stepWrite failAt "linkPrevDayMetrics" (fun s => s) store2
        else .ok store2
      let carryLabel := carryoverLabel thisDate
      let store4 := stepWriteNonfatal failAt "deleteCarryoverEvents"
        (fun s => s.modifyDay prevDate
          (fun d => { d with events := d.events.filter (fun e => e.label != carryLabel) }))
        store3
      let store5 := stepWriteNonfatal failAt "insertCarryoverEvent"
        (fun s => s.modifyDay prevDate
          (fun d => { d with events :=
            d.events ++ [carryoverEvent thisDate (earliestSegmentStart seg0 segRest)] }))
        store4
      .ok store5

/-- The patch as run without injected failures (its only abort is then an
invalid target date, which leaves the store untouched). -/
def applyPrevDaySleepPatch (store : Store) (thisDate : String)
    (segments : List PrevDaySleepSegment) : Store :=
  match applyPrevDaySleepPatchF none store thisDate segments with
  | .ok s => s
  | .error s => s

/- ------------------------------------------------------------------ -/
/- POST handler persistence sequence (route.ts lines 375-777)          -/
/- ------------------------------------------------------------------ -/

/-- Mapping of an analysis event onto an `events` row as inserted by the
POST handler (`start_time: e.startTime || null`: the empty string is falsy
and is stored as null). -/
def eventToRow (e : DayEvent) : EventRow :=
  { label := e.label,
    category := e.category,
    startTime := if e.startTime = "" then none else some e.startTime,
    endTime := if e.endTime = "" then none else some e.endTime,
    notes := e.notes }

/-- The metrics row written for the current day from the normalized
analysis. -/
def metricsRowOf (m : DayMetrics) : MetricsRow :=
  { productive := some m.productiveHours,
    neutral := some m.neutralHours,
    wasted := some m.wastedHours,
    sleep := some m.sleepHours,
    focusBlocks := some m.focusBlocks,
    contextSwitches := some m.contextSwitches }

/-- Upsert of the `days` row keyed by `(user_id, date)`: on conflict the
transcript, summary and suggestions columns are updated in place; otherwise a
fresh row is inserted. -/
def Store.upsertDayRow (s : Store) (date : String) (transcript : List String)
    (summary : Option String) (suggestions : Option (List String)) : Store :=
  match s.getDay date with
  | some _ =>
    s.modifyDay date (fun d =>
      { d with transcript := transcript, summary := summary,
               suggestions := suggestions })
  | none =>
    s.insertDay { date := date, transcript := transcript, summary := summary,
                  suggestions := suggestions, metrics := none, events := [] }

/-- Translation of the write sequence of the POST handler, from the point
where the summarizer has returned the raw candidate day `raw` (authorization,
configuration checks and the summarizer call itself precede any write and are
outside this model).  A request with a missing date or transcript is rejected
before any write.  In source order: extract the previous-day sleep segments,
normalize the current day, patch the previous day, ensure the owner row,
upsert the day row (appending the new transcript to the stored history),
upsert its metrics, relink `days.metrics_id` when it was unset, then replace
the event set (delete all, insert the new list).  A thrown persistence error
aborts the remaining steps but leaves every already-committed write in
place. -/
def runPost (failAt : Option String) (store : Store) (date : String)
    (transcript : String) (raw : DayAnalysis) : Except Store Store :=
  if date = "" ∨ transcript = "" then .error store
  else
    let existingTranscriptList :=
      match store.getDay date with
      | some d => d.transcript
      | none => []
    let updatedTranscriptList := existingTranscriptList ++ [transcript]
    let prevSleepSegments := extractPrevDaySleepSegments raw
    let analysis := normalizeSleepForDay raw
    do
      let s1 ←
        if prevSleepSegments.isEmpty then .ok store
        else applyPrevDaySleepPatchF failAt store analysis.date prevSleepSegments
      let s2 ←
        if s1.ownerExists then .ok s1
        else stepWrite failAt "insertUser" (fun s => { s with ownerExists := true }) s1
      let s3 ← stepWrite failAt "upsertDay"
        (fun s => s.upsertDayRow analysis.date updatedTranscriptList
          (some analysis.summary) (some analysis.suggestions)) s2
      let hadMetrics :=
        match s3.getDay analysis.date with
        | some d => d.metrics.isSome
        | none => false
      let s4 ← stepWrite failAt "upsertDayMetrics"
        (fun s => s.modifyDay analysis.date
          (fun d => { d with metrics := some (metricsRowOf analysis.metrics) })) s3
      let s5 ←
        if hadMetrics then .ok s4
        else stepWrite failAt "linkDayMetrics" (fun s => s) s4
      let s6 ← stepWrite failAt "deleteDayEvents"
        (fun s => s.modifyDay analysis.date (fun d => { d with events := [] })) s5
      let s7 ←
        if analysis.events.isEmpty then .ok s6
        else
          stepWrite failAt "insertDayEvents"
            (fun s => s.modifyDay analysis.date (fun d =>
              { d with events := d.events ++ analysis.events.map eventToRow }))
            s6
      .ok s7

/-- The store after a run, whether it committed or aborted partway. -/
def resultStore : Except Store Store → Store
  | .ok s => s
  | .error s => s

/-- Whether a run committed every write. -/
def resultOk : Except Store Store → Bool
  | .ok _ => true
  | .error _ => false

/- ------------------------------------------------------------------ -/
/- Spec-side helper definitions                                        -/
/- ------------------------------------------------------------------ -/

/-- The hour field of a time string: finite number coercion of the text
before the first `":"`. -/
def jsNumberHourField (t : String) : Option ℚ :=
  jsFiniteNumber ((splitOnChar ':' t.data).headD [])

/-- The minute field of a time string: finite number coercion of the text
between the first and second `":"` (none when there is no `":"`, since
`Number(undefined)` is NaN). -/
def jsNumberMinuteField (t : String) : Option ℚ :=
  ((splitOnChar ':' t.data).get? 1).bind jsFiniteNumber

/-- The metrics row currently stored for a date, if any. -/
def prevDayMetrics (store : Store) (date : String) : Option MetricsRow :=
  (store.getDay date).bind (fun d => d.metrics)

/-- The stored `sleep_hours` of a date, with a missing row or null column
read as `0`. -/
def storedSleepOrZero (store : Store) (date : String) : ℚ :=
  match (prevDayMetrics store date).bind (fun m => m.sleep) with
  | some q => q
  | none => 0

/-- The event rows currently stored for a date. -/
def storedEventsOf (store : Store) (date : String) : List EventRow :=
  match store.getDay date with
  | some d => d.events
  | none => []

/- ------------------------------------------------------------------ -/
/- Concrete inputs for counterexamples and witnesses                   -/
/- ------------------------------------------------------------------ -/

/-- All-zero summarizer metrics, used by concrete inputs. -/
def mZero : DayMetrics :=
  { productiveHours := 0, neutralHours := 0, wastedHours := 0,
    sleepHours := 0, focusBlocks := 0, contextSwitches := 0 }

def c1EvMain : DayEvent :=
  { label := "Night sleep", category := "sleep", startTime := "00:00",
    endTime := "07:00", notes := none }

def c1EvOther : DayEvent :=
  { label := "Late sleep", category := "sleep", startTime := "01:00",
    endTime := "07:00", notes := none }

/-- Two same-day sleep candidates with equal end times, listed main-first. -/
def c1A : DayAnalysis :=
  { date := "2025-01-11", events := [c1EvMain, c1EvOther], summary := "",
    metrics := mZero, suggestions := [] }

/-- The same two candidates, listed in the opposite order. -/
def c1B : DayAnalysis :=
  { date := "2025-01-11", events := [c1EvOther, c1EvMain], summary := "",
    metrics := mZero, suggestions := [] }

def c1wNight : DayEvent :=
  { label := "Night sleep", category := "sleep", startTime := "01:00",
    endTime := "07:00", notes := none }

def c1wNap : DayEvent :=
  { label := "Nap", category := "sleep", startTime := "14:00",
    endTime := "15:00", notes := none }

/-- A night block and a later nap with distinct end times. -/
def c1W : DayAnalysis :=
  { date := "2025-01-11", events := [c1wNight, c1wNap], summary := "",
    metrics := mZero, suggestions := [] }

/-- A cross-midnight sleep event whose end is exactly midnight. -/
def c2DropEv : DayEvent :=
  { label := "Night sleep", category := "sleep", startTime := "23:00",
    endTime := "00:00", notes := none }

def c2CexAnalysis : DayAnalysis :=
  { date := "2025-01-11", events := [c2DropEv], summary := "",
    metrics := mZero, suggestions := [] }

/-- An ordinary cross-midnight sleep event. -/
def c2wEv : DayEvent :=
  { label := "Night sleep", category := "sleep", startTime := "23:00",
    endTime := "07:00", notes := none }

/-- A same-day sleep event of zero length. -/
def c5ZeroEv : DayEvent :=
  { label := "Micro nap", category := "sleep", startTime := "14:00",
    endTime := "14:00", notes := none }

def c5CexAnalysis : DayAnalysis :=
  { date := "2025-01-11", events := [c5ZeroEv], summary := "",
    metrics := mZero, suggestions := [] }

def c5wEv : DayEvent :=
  { label := "Night sleep", category := "sleep", startTime := "01:00",
    endTime := "07:00", notes := none }

/-- A sleep event with an unparseable end time, and summarizer-proposed
sleep hours that the normalizer must discard. -/
def c6Analysis : DayAnalysis :=
  { date := "2025-01-11",
    events := [{ label := "Night sleep", category := "sleep",
                 startTime := "23:00", endTime := "24:00", notes := none }],
    summary := "", metrics := { mZero with sleepHours := 5 },
    suggestions := [] }

def c3Store0 : Store := { ownerExists := true, days := [] }

def c3Segs : List PrevDaySleepSegment :=
  [{ startMinutes := 1380, endMinutes := 1440 }]

/-- A previous day that already has metrics, to witness additivity and the
frame property of the patch. -/
def c7Store : Store :=
  { ownerExists := true,
    days := [{ date := "2025-01-10", transcript := ["day ten"],
               summary := some "s", suggestions := some ["g"],
               metrics := some { productive := some 4, neutral := some 2,
                                 wasted := some 1, sleep := some 6,
                                 focusBlocks := some 3, contextSwitches := some 7 },
               events := [] }] }

def c8Store : Store :=
  { ownerExists := true,
    days := [{ date := "2025-01-10", transcript := [], summary := none,
               suggestions := none, metrics := none,
               events := [{ label := "Dinner", category := "neutral",
                            startTime := some "19:00", endTime := some "20:00",
                            notes := none },
                          { label := "Sleep (carryover to 2025-01-11)",
                            category := "sleep", startTime := some "22:00",
                            endTime := some "23:59", notes := none }] }] }

def c7Seg0 : PrevDaySleepSegment := { startMinutes := 1380, endMinutes := 1440 }

def c8Seg0 : PrevDaySleepSegment := { startMinutes := 1380, endMinutes := 1440 }

def c4Store0 : Store := { ownerExists := true, days := [] }

/-- A summarizer result with a cross-midnight sleep event, triggering the
previous-day patch. -/
def c4Raw : DayAnalysis :=
  { date := "2025-01-11",
    events := [{ label := "Night sleep", category := "sleep",
                 startTime := "23:00", endTime := "07:00", notes := none }],
    summary := "slept well", metrics := { mZero with sleepHours := 8 },
    suggestions := [] }

/-- A summarizer result with a cross-midnight non-sleep event, which the
normalizer passes through untouched. -/
def c9Raw : DayAnalysis :=
  { date := "2025-01-11",
    events := [{ label := "Doomscrolling", category := "waste",
                 startTime := "23:00", endTime := "01:00", notes := none }],
    summary := "", metrics := mZero, suggestions := [] }

def c9wEv : DayEvent :=
  { label := "Night sleep", category := "sleep", startTime := "01:00",
    endTime := "07:00", notes := none }

def c9wAnalysis : DayAnalysis :=
  { date := "2025-01-11",
    events := [{ label := "Night sleep", category := "sleep",
                 startTime := "01:00", endTime := "07:00", notes := none }],
    summary := "", metrics := mZero, suggestions := [] }

/- ------------------------------------------------------------------ -/
/- Basic lemmas about the primitives                                   -/
/- ------------------------------------------------------------------ -/


theorem parseTimeToMinutes_range {t : String} {v : Int}
    (h : parseTimeToMinutes t = some v) : 0 ≤ v ∧ v ≤ 1439 := by
  unfold parseTimeToMinutes at h
  split at h
  · cases h
  · simp only [] at h
    split at h
    · next hh hm =>
      split at h
      · cases h
      · next hrange =>
        push_neg at hrange
        injection h with hv
        omega
    · cases h

theorem digitChar_isDigit {k : Nat} (hk : k < 10) :
    (digitChar k).isDigit = true := by
  interval_cases k <;> decide

theorem digitChar_ne_colon {k : Nat} (hk : k < 10) : digitChar k ≠ ':' := by
  interval_cases k <;> decide

theorem padTwo_natToDecChars_form {n : Nat} (hn : n ≤ 99) :
    padTwo (natToDecChars n) = [digitChar (n / 10), digitChar (n % 10)] := by
  by_cases h10 : n < 10
  · have hd : n / 10 = 0 := by omega
    have hm : n % 10 = n := by omega
    simp [natToDecChars, padTwo, h10, hd, hm, digitChar]
  · simp [natToDecChars, padTwo, h10]

theorem jsNumberChars_two_digits {j k : Nat} (hj : j < 10) (hk : k < 10) :
    jsNumberChars [digitChar j, digitChar k] = some ((10 * j + k : Nat) : Int) := by
  interval_cases j <;> interval_cases k <;> decide

theorem jsNumberChars_padTwo {n : Nat} (hn : n ≤ 99) :
    jsNumberChars (padTwo (natToDecChars n)) = some ((n : Nat) : Int) := by
  rw [padTwo_natToDecChars_form hn]
  rw [jsNumberChars_two_digits (by omega) (by omega)]
  congr 1
  omega

theorem splitOnChar_of_not_mem {sep : Char} {cs : List Char}
    (h : ∀ c ∈ cs, c ≠ sep) : splitOnChar sep cs = [cs] := by
  induction cs with
  | nil => rfl
  | cons c rest ih =>
    have hc : c ≠ sep := h c (by simp)
    have hrest := ih (fun x hx => h x (by simp [hx]))
    simp [splitOnChar, hc, hrest]

theorem splitOnChar_append {sep : Char} {A B : List Char}
    (h : ∀ c ∈ A, c ≠ sep) :
    splitOnChar sep (A ++ sep :: B) = A :: splitOnChar sep B := by
  induction A with
  | nil => simp [splitOnChar]
  | cons a A ih =>
    have ha : a ≠ sep := h a (by simp)
    have htail := ih (fun x hx => h x (by simp [hx]))
    simp only [List.cons_append, splitOnChar]
    rw [if_neg ha]
    simp only [List.append_eq]
    rw [htail]

theorem parseTimeToMinutes_mk_two {h m : Nat} (hh : h ≤ 23) (hm : m ≤ 59) :
    parseTimeToMinutes
      (String.mk (padTwo (natToDecChars h) ++ ':' :: padTwo (natToDecChars m)))
      = some ((h : Int) * 60 + (m : Int)) := by
  have hAc : ∀ c ∈ padTwo (natToDecChars h), c ≠ ':' := by
    rw [padTwo_natToDecChars_form (by omega)]
    intro c hc
    simp only [List.mem_cons, List.not_mem_nil, or_false] at hc
    rcases hc with hc | hc <;> exact hc ▸ digitChar_ne_colon (by omega)
  have hBc : ∀ c ∈ padTwo (natToDecChars m), c ≠ ':' := by
    rw [padTwo_natToDecChars_form (by omega)]
    intro c hc
    simp only [List.mem_cons, List.not_mem_nil, or_false] at hc
    rcases hc with hc | hc <;> exact hc ▸ digitChar_ne_colon (by omega)
  have hsplit : splitOnChar ':'
      (padTwo (natToDecChars h) ++ ':' :: padTwo (natToDecChars m))
      = [padTwo (natToDecChars h), padTwo (natToDecChars m)] := by
    rw [splitOnChar_append hAc, splitOnChar_of_not_mem hBc]
  have hne : (padTwo (natToDecChars h) ++ ':' :: padTwo (natToDecChars m)).isEmpty
      = false := by
    rw [padTwo_natToDecChars_form (n := h) (by omega)]
    rfl
  unfold parseTimeToMinutes
  simp only []
  rw [hne, hsplit]
  simp only [Bool.false_eq_true, if_false, List.headD_cons, List.get?_cons_succ,
    List.get?_cons_zero, Option.some_bind]
  rw [jsNumberChars_padTwo (n := h) (by omega), jsNumberChars_padTwo (n := m) (by omega)]
  dsimp only
  rw [if_neg]
  push_neg
  refine ⟨by omega, by omega, by omega, by omega⟩

theorem parseTimeToMinutes_minutesToHHMM {n : Int} (h0 : 0 ≤ n) (h1 : n ≤ 1439) :
    parseTimeToMinutes (minutesToHHMM n) = some n := by
  have hmk : minutesToHHMM n
      = String.mk (padTwo (natToDecChars (n.toNat / 60)) ++ ':' ::
          padTwo (natToDecChars (n.toNat % 60))) := by
    unfold minutesToHHMM
    rw [show max 0 (min n (24 * 60 - 1)) = n by omega]
  rw [hmk, parseTimeToMinutes_mk_two (by omega) (by omega)]
  congr 1
  push_cast
  omega

/- ------------------------------------------------------------------ -/
/- Lemmas about the normalizer                                         -/
/- ------------------------------------------------------------------ -/

theorem foldEarliest_mem (s : SleepSegment) (rest : List SleepSegment) :
    rest.foldl (fun earliest seg =>
      if seg.endMinutes < earliest.endMinutes then seg else earliest) s ∈ s :: rest := by
  induction rest generalizing s with
  | nil => simp
  | cons r rs ih =>
    simp only [List.foldl_cons]
    have h := ih (if r.endMinutes < s.endMinutes then r else s)
    rcases List.mem_cons.mp h with h1 | h1
    · rw [h1]
      split
      · exact List.mem_cons_of_mem _ (List.mem_cons_self _ _)
      · exact List.mem_cons_self _ _
    · exact List.mem_cons_of_mem _ (List.mem_cons_of_mem _ h1)

theorem foldEarliest_min (s : SleepSegment) (rest : List SleepSegment) :
    ∀ x ∈ s :: rest,
      (rest.foldl (fun earliest seg =>
        if seg.endMinutes < earliest.endMinutes then seg else earliest) s).endMinutes
        ≤ x.endMinutes := by
  induction rest generalizing s with
  | nil =>
    intro x hx
    simp only [List.mem_singleton] at hx
    simp only [List.foldl_nil, hx]
    exact le_rfl
  | cons r rs ih =>
    intro x hx
    simp only [List.foldl_cons]
    have hs : (if r.endMinutes < s.endMinutes then r else s).endMinutes ≤ s.endMinutes := by
      split <;> omega
    have hr : (if r.endMinutes < s.endMinutes then r else s).endMinutes ≤ r.endMinutes := by
      split <;> omega
    have hhead := ih (if r.endMinutes < s.endMinutes then r else s)
      (if r.endMinutes < s.endMinutes then r else s) (List.mem_cons_self _ _)
    rcases List.mem_cons.mp hx with h1 | h1
    · rw [h1]
      exact le_trans hhead hs
    · rcases List.mem_cons.mp h1 with h2 | h2
      · rw [h2]
        exact le_trans hhead hr
      · exact ih _ x (List.mem_cons_of_mem _ h2)

theorem selectMainSegment_cons (s : SleepSegment) (rest : List SleepSegment) :
    selectMainSegment (s :: rest)
      = some (rest.foldl (fun earliest seg =>
          if seg.endMinutes < earliest.endMinutes then seg else earliest) s) := rfl

theorem normalizeSleepEvents_cons (ev : DayEvent) (rest : List DayEvent) :
    normalizeSleepEvents (ev :: rest)
      = ((normalizeSleepEvent ev).1 ++ (normalizeSleepEvents rest).1,
         (normalizeSleepEvent ev).2 ++ (normalizeSleepEvents rest).2) := rfl

theorem normalizeSleepEvents_append (xs ys : List DayEvent) :
    normalizeSleepEvents (xs ++ ys)
      = ((normalizeSleepEvents xs).1 ++ (normalizeSleepEvents ys).1,
         (normalizeSleepEvents xs).2 ++ (normalizeSleepEvents ys).2) := by
  induction xs with
  | nil => simp [normalizeSleepEvents]
  | cons e xs ih =>
    simp only [List.cons_append, normalizeSleepEvents_cons, ih, List.append_assoc]

theorem extractPrevSegsEvents_cons (ev : DayEvent) (rest : List DayEvent) :
    extractPrevSegsEvents (ev :: rest)
      = extractPrevDaySleepSegment ev ++ extractPrevSegsEvents rest := rfl

theorem extractPrevSegsEvents_append (xs ys : List DayEvent) :
    extractPrevSegsEvents (xs ++ ys)
      = extractPrevSegsEvents xs ++ extractPrevSegsEvents ys := by
  induction xs with
  | nil => rfl
  | cons e xs ih =>
    simp only [List.cons_append, extractPrevSegsEvents_cons, ih, List.append_assoc]

theorem normalizeSleepEvent_nonSleep {ev : DayEvent}
    (h : ev.category ≠ "sleep") : normalizeSleepEvent ev = ([ev], []) := by
  unfold normalizeSleepEvent
  rw [if_pos h]

theorem normalizeSleepEvent_unparsed {ev : DayEvent}
    (hcat : ev.category = "sleep")
    (hbad : parseTimeToMinutes ev.startTime = none ∨ parseTimeToMinutes ev.endTime = none) :
    normalizeSleepEvent ev = ([ev], []) := by
  unfold normalizeSleepEvent
  rw [if_neg (by simp [hcat])]
  rcases hS : parseTimeToMinutes ev.startTime with _ | sv
  · rcases hE : parseTimeToMinutes ev.endTime with _ | ew <;> rfl
  · rcases hE : parseTimeToMinutes ev.endTime with _ | ew
    · rfl
    · rcases hbad with hb | hb
      · rw [hS] at hb; cases hb
      · rw [hE] at hb; cases hb

theorem normalizeSleepEvent_sameday {ev : DayEvent} {s e : Int}
    (hcat : ev.category = "sleep")
    (hS : parseTimeToMinutes ev.startTime = some s)
    (hE : parseTimeToMinutes ev.endTime = some e)
    (hlt : s < e) :
    normalizeSleepEvent ev
      = ([{ ev with startTime := minutesToHHMM s, endTime := minutesToHHMM e }],
         [{ startMinutes := s, endMinutes := e }]) := by
  have hrs := parseTimeToMinutes_range hS
  have hre := parseTimeToMinutes_range hE
  unfold normalizeSleepEvent
  rw [if_neg (by simp [hcat]), hS, hE]
  dsimp only
  rw [if_pos (by omega : s ≤ e)]
  rw [show max s 0 = s by omega, show min e (24 * 60) = e by omega]
  rw [if_pos hlt]

theorem normalizeSleepEvent_sameday_zero {ev : DayEvent} {s : Int}
    (hcat : ev.category = "sleep")
    (hS : parseTimeToMinutes ev.startTime = some s)
    (hE : parseTimeToMinutes ev.endTime = some s) :
    normalizeSleepEvent ev = ([], []) := by
  have hrs := parseTimeToMinutes_range hS
  unfold normalizeSleepEvent
  rw [if_neg (by simp [hcat]), hS, hE]
  dsimp only
  rw [if_pos (le_refl s)]
  rw [show max s 0 = s by omega, show min s (24 * 60) = s by omega]
  rw [if_neg (lt_irrefl s)]

theorem normalizeSleepEvent_cross {ev : DayEvent} {s e : Int}
    (hcat : ev.category = "sleep")
    (hS : parseTimeToMinutes ev.startTime = some s)
    (hE : parseTimeToMinutes ev.endTime = some e)
    (hlt : e < s) (hpos : 0 < e) :
    normalizeSleepEvent ev
      = ([{ ev with startTime := "00:00", endTime := minutesToHHMM e }],
         [{ startMinutes := 0, endMinutes := e }]) := by
  have hre := parseTimeToMinutes_range hE
  unfold normalizeSleepEvent
  rw [if_neg (by simp [hcat]), hS, hE]
  dsimp only
  rw [if_neg (by omega : ¬ s ≤ e)]
  rw [show min e (24 * 60) = e by omega]
  rw [if_pos hpos]
  rw [show minutesToHHMM 0 = "00:00" by decide]

theorem normalizeSleepEvent_cross_endZero {ev : DayEvent} {s e : Int}
    (hcat : ev.category = "sleep")
    (hS : parseTimeToMinutes ev.startTime = some s)
    (hE : parseTimeToMinutes ev.endTime = some e)
    (hlt : e < s) (hzero : e ≤ 0) :
    normalizeSleepEvent ev = ([], []) := by
  unfold normalizeSleepEvent
  rw [if_neg (by simp [hcat]), hS, hE]
  dsimp only
  rw [if_neg (by omega : ¬ s ≤ e)]
  rw [if_neg (by omega : ¬ (0 : Int) < min e (24 * 60))]

theorem extractPrevDaySleepSegment_nonSleep {ev : DayEvent}
    (h : ev.category ≠ "sleep") : extractPrevDaySleepSegment ev = [] := by
  unfold extractPrevDaySleepSegment
  rw [if_pos h]

theorem extractPrevDaySleepSegment_unparsed {ev : DayEvent}
    (hcat : ev.category = "sleep")
    (hbad : parseTimeToMinutes ev.startTime = none ∨ parseTimeToMinutes ev.endTime = none) :
    extractPrevDaySleepSegment ev = [] := by
  unfold extractPrevDaySleepSegment
  rw [if_neg (by simp [hcat])]
  rcases hS : parseTimeToMinutes ev.startTime with _ | sv
  · rcases hE : parseTimeToMinutes ev.endTime with _ | ew <;> rfl
  · rcases hE : parseTimeToMinutes ev.endTime with _ | ew
    · rfl
    · rcases hbad with hb | hb
      · rw [hS] at hb; cases hb
      · rw [hE] at hb; cases hb

theorem extractPrevDaySleepSegment_cross {ev : DayEvent} {s e : Int}
    (hcat : ev.category = "sleep")
    (hS : parseTimeToMinutes ev.startTime = some s)
    (hE : parseTimeToMinutes ev.endTime = some e)
    (hlt : e < s) :
    extractPrevDaySleepSegment ev = [{ startMinutes := s, endMinutes := 24 * 60 }] := by
  unfold extractPrevDaySleepSegment
  rw [if_neg (by simp [hcat]), hS, hE]
  dsimp only
  rw [if_pos hlt]

theorem extractPrevDaySleepSegment_sameday {ev : DayEvent} {s e : Int}
    (hcat : ev.category = "sleep")
    (hS : parseTimeToMinutes ev.startTime = some s)
    (hE : parseTimeToMinutes ev.endTime = some e)
    (hle : s ≤ e) :
    extractPrevDaySleepSegment ev = [] := by
  unfold extractPrevDaySleepSegment
  rw [if_neg (by simp [hcat]), hS, hE]
  dsimp only
  rw [if_neg (by omega : ¬ e < s)]

theorem normalizeSleepEvent_segment_bounds {ev : DayEvent} {seg : SleepSegment}
    (hmem : seg ∈ (normalizeSleepEvent ev).2) :
    0 ≤ seg.startMinutes ∧ seg.startMinutes < seg.endMinutes := by
  by_cases hcat : ev.category = "sleep"
  · rcases hS : parseTimeToMinutes ev.startTime with _ | sv
    · rw [normalizeSleepEvent_unparsed hcat (Or.inl hS)] at hmem
      simp at hmem
    · rcases hE : parseTimeToMinutes ev.endTime with _ | ew
      · rw [normalizeSleepEvent_unparsed hcat (Or.inr hE)] at hmem
        simp at hmem
      · have hrs := parseTimeToMinutes_range hS
        have hre := parseTimeToMinutes_range hE
        rcases lt_trichotomy sv ew with hlt | heq | hgt
        · rw [normalizeSleepEvent_sameday hcat hS hE hlt] at hmem
          simp only [List.mem_singleton] at hmem
          rw [hmem]
          refine ⟨?_, ?_⟩ <;> dsimp only <;> omega
        · rw [heq] at hS
          rw [normalizeSleepEvent_sameday_zero hcat hS hE] at hmem
          simp at hmem
        · by_cases hpos : 0 < ew
          · rw [normalizeSleepEvent_cross hcat hS hE hgt hpos] at hmem
            simp only [List.mem_singleton] at hmem
            rw [hmem]
            exact ⟨le_refl 0, hpos⟩
          · rw [normalizeSleepEvent_cross_endZero hcat hS hE hgt (by omega)] at hmem
            simp at hmem
  · rw [normalizeSleepEvent_nonSleep hcat] at hmem
    simp at hmem

theorem collectSegments_bounds {evs : List DayEvent} {seg : SleepSegment}
    (hmem : seg ∈ (normalizeSleepEvents evs).2) :
    0 ≤ seg.startMinutes ∧ seg.startMinutes < seg.endMinutes := by
  induction evs with
  | nil => simp [normalizeSleepEvents] at hmem
  | cons e rest ih =>
    rw [normalizeSleepEvents_cons] at hmem
    rcases List.mem_append.mp hmem with h1 | h1
    · exact normalizeSleepEvent_segment_bounds h1
    · exact ih h1

/- ------------------------------------------------------------------ -/
/- Helper equalities on the normalizer components                      -/
/- ------------------------------------------------------------------ -/

theorem normalizeSleepEvents_append_fst (xs ys : List DayEvent) :
    (normalizeSleepEvents (xs ++ ys)).1
      = (normalizeSleepEvents xs).1 ++ (normalizeSleepEvents ys).1 := by
  rw [normalizeSleepEvents_append]

theorem normalizeSleepEvents_append_snd (xs ys : List DayEvent) :
    (normalizeSleepEvents (xs ++ ys)).2
      = (normalizeSleepEvents xs).2 ++ (normalizeSleepEvents ys).2 := by
  rw [normalizeSleepEvents_append]

theorem normalizeSleepForDay_events (a : DayAnalysis) :
    (normalizeSleepForDay a).events = (normalizeSleepEvents a.events).1 := rfl

theorem normalizeSleepForDay_sleepHours (a : DayAnalysis) :
    (normalizeSleepForDay a).metrics.sleepHours
      = ((match selectMainSegment (normalizeSleepEvents a.events).2 with
          | some mainSegment => max 0 (mainSegment.endMinutes - mainSegment.startMinutes)
          | none => 0 : Int) : ℚ) / 60 := rfl

/- ------------------------------------------------------------------ -/
/- Claim C1                                                            -/
/- ------------------------------------------------------------------ -/

/-- C1 (amended): when some candidate segment ends strictly earlier than every
other candidate collected for the day, `sleepHours` is its duration in hours
(end minus start, divided by 60); the value depends only on that segment, so
the metric is order-independent whenever the minimal end time is uniquely
attained.  (With ties on the earliest end time the source's reduction keeps
the earlier-listed segment, so the order matters; see the counterexample.) -/
theorem c1_main_sleep_amended (a : DayAnalysis) (seg : SleepSegment)
    (hmem : seg ∈ collectSleepSegments a)
    (huniq : ∀ x ∈ collectSleepSegments a, x ≠ seg → seg.endMinutes < x.endMinutes) :
    (normalizeSleepForDay a).metrics.sleepHours
      = ((seg.endMinutes - seg.startMinutes : Int) : ℚ) / 60 := by
  have hcoll : collectSleepSegments a = (normalizeSleepEvents a.events).2 := rfl
  have hb := collectSegments_bounds (hcoll ▸ hmem)
  rcases hl : (normalizeSleepEvents a.events).2 with _ | ⟨s0, rest⟩
  · rw [hcoll, hl] at hmem
    simp at hmem
  · have hfmem : rest.foldl (fun earliest seg =>
        if seg.endMinutes < earliest.endMinutes then seg else earliest) s0 ∈ s0 :: rest :=
      foldEarliest_mem s0 rest
    have hfmin := foldEarliest_min s0 rest
    have hmem2 : seg ∈ s0 :: rest := by
      rw [hcoll, hl] at hmem
      exact hmem
    have hfeq : rest.foldl (fun earliest seg =>
        if seg.endMinutes < earliest.endMinutes then seg else earliest) s0 = seg := by
      by_contra hne
      have h1 : seg.endMinutes < (rest.foldl (fun earliest seg =>
          if seg.endMinutes < earliest.endMinutes then seg else earliest) s0).endMinutes :=
        huniq _ (by rw [hcoll, hl]; exact hfmem) hne
      have h2 := hfmin seg hmem2
      omega
    rw [normalizeSleepForDay_sleepHours, hl, selectMainSegment_cons, hfeq]
    dsimp only
    rw [show max 0 (seg.endMinutes - seg.startMinutes) = seg.endMinutes - seg.startMinutes
      by omega]

/-- C1 counterexample: two same-day sleep candidates with the same end time
07:00 but different starts; listing them in the opposite order changes
`sleepHours` from 7 to 6, so the metric is not independent of the order in
which the segments appear in the event list. -/
theorem c1_counterexample :
    c1B.events = c1A.events.reverse ∧
    (normalizeSleepForDay c1A).metrics.sleepHours = 7 ∧
    (normalizeSleepForDay c1B).metrics.sleepHours = 6 := by
  refine ⟨by decide, ?_, ?_⟩
  · rw [show (normalizeSleepForDay c1A).metrics.sleepHours = ((420 : Int) : ℚ) / 60 from rfl]
    norm_num
  · rw [show (normalizeSleepForDay c1B).metrics.sleepHours = ((360 : Int) : ℚ) / 60 from rfl]
    norm_num

/-- C1 witness: a night block 01:00-07:00 and a nap 14:00-15:00; the night
block is the unique earliest-ending candidate and yields 6 sleep hours. -/
theorem c1_witness :
    ({ startMinutes := 60, endMinutes := 420 } : SleepSegment) ∈ collectSleepSegments c1W ∧
    (normalizeSleepForDay c1W).metrics.sleepHours = ((420 - 60 : Int) : ℚ) / 60 :=
  ⟨by decide,
   c1_main_sleep_amended c1W { startMinutes := 60, endMinutes := 420 }
     (by decide) (by decide)⟩

/- ------------------------------------------------------------------ -/
/- Claim C5                                                            -/
/- ------------------------------------------------------------------ -/

/-- C5 (amended): a sleep event with validly parsed times and start ≤ end is
kept in the output list with its start and end re-rendered in zero-padded
`HH:MM` form denoting the same minute values, and its duration is recorded as
a same-day segment candidate — provided start < end.  A zero-length event
(start = end) is dropped from the event list and contributes no candidate. -/
theorem c5_sameday_amended (pre post : List DayEvent) (ev : DayEvent) (s e : Int)
    (hcat : ev.category = "sleep")
    (hS : parseTimeToMinutes ev.startTime = some s)
    (hE : parseTimeToMinutes ev.endTime = some e)
    (hle : s ≤ e) :
    (s < e →
      (normalizeSleepEvents (pre ++ ev :: post)).1
        = (normalizeSleepEvents pre).1
            ++ { ev with startTime := minutesToHHMM s, endTime := minutesToHHMM e }
              :: (normalizeSleepEvents post).1
      ∧ parseTimeToMinutes (minutesToHHMM s) = some s
      ∧ parseTimeToMinutes (minutesToHHMM e) = some e
      ∧ (normalizeSleepEvents (pre ++ ev :: post)).2
        = (normalizeSleepEvents pre).2
            ++ { startMinutes := s, endMinutes := e } :: (normalizeSleepEvents post).2)
    ∧ (s = e →
      (normalizeSleepEvents (pre ++ ev :: post)).1
        = (normalizeSleepEvents pre).1 ++ (normalizeSleepEvents post).1
      ∧ (normalizeSleepEvents (pre ++ ev :: post)).2
        = (normalizeSleepEvents pre).2 ++ (normalizeSleepEvents post).2) := by
  have hrs := parseTimeToMinutes_range hS
  have hre := parseTimeToMinutes_range hE
  constructor
  · intro hlt
    have hev := normalizeSleepEvent_sameday hcat hS hE hlt
    refine ⟨?_, parseTimeToMinutes_minutesToHHMM (by omega) (by omega),
      parseTimeToMinutes_minutesToHHMM (by omega) (by omega), ?_⟩
    · rw [normalizeSleepEvents_append_fst]
      simp only [normalizeSleepEvents_cons, hev]
      rfl
    · rw [normalizeSleepEvents_append_snd]
      simp only [normalizeSleepEvents_cons, hev]
      rfl
  · intro heq
    subst heq
    have hev := normalizeSleepEvent_sameday_zero hcat hS hE
    constructor
    · rw [normalizeSleepEvents_append_fst]
      simp only [normalizeSleepEvents_cons, hev]
      rfl
    · rw [normalizeSleepEvents_append_snd]
      simp only [normalizeSleepEvents_cons, hev]
      rfl

/-- C5 counterexample: the zero-length sleep event 14:00-14:00 has validly
parsed times with start ≤ end, yet normalization removes it from the event
list entirely and records no same-day segment candidate. -/
theorem c5_counterexample :
    c5ZeroEv.category = "sleep" ∧
    parseTimeToMinutes c5ZeroEv.startTime = some 840 ∧
    parseTimeToMinutes c5ZeroEv.endTime = some 840 ∧
    (normalizeSleepForDay c5CexAnalysis).events = [] ∧
    collectSleepSegments c5CexAnalysis = [] := by decide

/-- C5 witness: a 01:00-07:00 sleep event is kept (re-rendered to the same
minute values) and recorded as the candidate segment [60, 420). -/
theorem c5_witness :
    (60 : Int) < 420 ∧
    ((normalizeSleepEvents ([] ++ c5wEv :: [])).1
        = (normalizeSleepEvents ([] : List DayEvent)).1
            ++ { c5wEv with startTime := minutesToHHMM 60, endTime := minutesToHHMM 420 }
              :: (normalizeSleepEvents ([] : List DayEvent)).1
      ∧ parseTimeToMinutes (minutesToHHMM 60) = some 60
      ∧ parseTimeToMinutes (minutesToHHMM 420) = some 420
      ∧ (normalizeSleepEvents ([] ++ c5wEv :: [])).2
        = (normalizeSleepEvents ([] : List DayEvent)).2
            ++ { startMinutes := 60, endMinutes := 420 }
              :: (normalizeSleepEvents ([] : List DayEvent)).2) :=
  ⟨by decide,
   (c5_sameday_amended [] [] c5wEv 60 420 (by decide) (by decide) (by decide)
     (by decide)).1 (by decide)⟩

/- ------------------------------------------------------------------ -/
/- Claim C6                                                            -/
/- ------------------------------------------------------------------ -/

/-- C6: when normalization collects zero valid sleep segments for the day,
the output `metrics.sleepHours` is exactly 0, regardless of the sleep hours
the summarizer proposed in the input metrics. -/
theorem c6_zero_segments (a : DayAnalysis)
    (h : collectSleepSegments a = []) :
    (normalizeSleepForDay a).metrics.sleepHours = 0 := by
  have h2 : (normalizeSleepEvents a.events).2 = [] := h
  rw [normalizeSleepForDay_sleepHours, h2]
  norm_num [selectMainSegment]

/-- C6 witness: the input proposes 5 sleep hours but its only sleep event has
the unparseable end time 24:00, so no segment is collected and the output
sleep hours are 0. -/
theorem c6_witness :
    collectSleepSegments c6Analysis = [] ∧
    c6Analysis.metrics.sleepHours = 5 ∧
    (normalizeSleepForDay c6Analysis).metrics.sleepHours = 0 :=
  ⟨by decide, rfl, c6_zero_segments c6Analysis (by decide)⟩

/- ------------------------------------------------------------------ -/
/- Claim C2                                                            -/
/- ------------------------------------------------------------------ -/

/-- C2 (amended): a sleep event with validly parsed times and start > end
always yields the previous-day segment [start, 1440) (and the [start, 1440)
portion is never written to the day's event list); when end > 0 the day keeps
an event with start forced to 00:00 and the end re-rendered to the same
minute value, while an event whose end is exactly 00:00 (end = 0 minutes) is
dropped from the day's event list entirely. -/
theorem c2_cross_midnight_amended (pre post : List DayEvent) (ev : DayEvent)
    (s e : Int)
    (hcat : ev.category = "sleep")
    (hS : parseTimeToMinutes ev.startTime = some s)
    (hE : parseTimeToMinutes ev.endTime = some e)
    (hlt : e < s) :
    extractPrevSegsEvents (pre ++ ev :: post)
      = extractPrevSegsEvents pre
          ++ { startMinutes := s, endMinutes := 24 * 60 } :: extractPrevSegsEvents post
    ∧ (0 < e →
        (normalizeSleepEvents (pre ++ ev :: post)).1
          = (normalizeSleepEvents pre).1
              ++ { ev with startTime := "00:00", endTime := minutesToHHMM e }
                :: (normalizeSleepEvents post).1
        ∧ parseTimeToMinutes (minutesToHHMM e) = some e
        ∧ (normalizeSleepEvents (pre ++ ev :: post)).2
          = (normalizeSleepEvents pre).2
              ++ { startMinutes := 0, endMinutes := e } :: (normalizeSleepEvents post).2)
    ∧ (e = 0 →
        (normalizeSleepEvents (pre ++ ev :: post)).1
          = (normalizeSleepEvents pre).1 ++ (normalizeSleepEvents post).1
        ∧ (normalizeSleepEvents (pre ++ ev :: post)).2
          = (normalizeSleepEvents pre).2 ++ (normalizeSleepEvents post).2) := by
  have hre := parseTimeToMinutes_range hE
  refine ⟨?_, ?_, ?_⟩
  · rw [extractPrevSegsEvents_append]
    simp only [extractPrevSegsEvents_cons, extractPrevDaySleepSegment_cross hcat hS hE hlt]
    rfl
  · intro hpos
    have hev := normalizeSleepEvent_cross hcat hS hE hlt hpos
    refine ⟨?_, parseTimeToMinutes_minutesToHHMM (by omega) (by omega), ?_⟩
    · rw [normalizeSleepEvents_append_fst]
      simp only [normalizeSleepEvents_cons, hev]
      rfl
    · rw [normalizeSleepEvents_append_snd]
      simp only [normalizeSleepEvents_cons, hev]
      rfl
  · intro hzero
    have hev := normalizeSleepEvent_cross_endZero hcat hS hE hlt (by omega)
    constructor
    · rw [normalizeSleepEvents_append_fst]
      simp only [normalizeSleepEvents_cons, hev]
      rfl
    · rw [normalizeSleepEvents_append_snd]
      simp only [normalizeSleepEvents_cons, hev]
      rfl

/-- C2 counterexample: the cross-midnight sleep event 23:00-00:00 parses to
start 1380 > end 0; the claim requires an event with start 00:00 in the day's
output list, but normalization drops the event entirely (the previous-day
segment [1380, 1440) is still recorded). -/
theorem c2_counterexample :
    c2DropEv.category = "sleep" ∧
    parseTimeToMinutes c2DropEv.startTime = some 1380 ∧
    parseTimeToMinutes c2DropEv.endTime = some 0 ∧
    (normalizeSleepForDay c2CexAnalysis).events = [] ∧
    extractPrevDaySleepSegments c2CexAnalysis
      = [{ startMinutes := 1380, endMinutes := 1440 }] := by decide

/-- C2 witness: the cross-midnight sleep event 23:00-07:00 yields the
previous-day segment [1380, 1440), and the day keeps an event 00:00-07:00
whose end parses back to 420 minutes. -/
theorem c2_witness :
    (extractPrevSegsEvents ([] ++ c2wEv :: [])
        = extractPrevSegsEvents ([] : List DayEvent)
            ++ { startMinutes := 1380, endMinutes := 24 * 60 }
              :: extractPrevSegsEvents ([] : List DayEvent))
    ∧ ((normalizeSleepEvents ([] ++ c2wEv :: [])).1
          = (normalizeSleepEvents ([] : List DayEvent)).1
              ++ { c2wEv with startTime := "00:00", endTime := minutesToHHMM 420 }
                :: (normalizeSleepEvents ([] : List DayEvent)).1
        ∧ parseTimeToMinutes (minutesToHHMM 420) = some 420
        ∧ (normalizeSleepEvents ([] ++ c2wEv :: [])).2
          = (normalizeSleepEvents ([] : List DayEvent)).2
              ++ { startMinutes := 0, endMinutes := 420 }
                :: (normalizeSleepEvents ([] : List DayEvent)).2) :=
  ⟨(c2_cross_midnight_amended [] [] c2wEv 1380 420 (by decide) (by decide)
      (by decide) (by decide)).1,
   (c2_cross_midnight_amended [] [] c2wEv 1380 420 (by decide) (by decide)
      (by decide) (by decide)).2.1 (by decide)⟩

/- ------------------------------------------------------------------ -/
/- Claim C9                                                            -/
/- ------------------------------------------------------------------ -/

theorem normalizedEvents_sleep_ordered {evs : List DayEvent} {ev : DayEvent}
    (hmem : ev ∈ (normalizeSleepEvents evs).1)
    (hcat : ev.category = "sleep") {ps pe : Int}
    (hS : parseTimeToMinutes ev.startTime = some ps)
    (hE : parseTimeToMinutes ev.endTime = some pe) :
    ps ≤ pe := by
  induction evs with
  | nil => simp [normalizeSleepEvents] at hmem
  | cons e0 rest ih =>
    rw [normalizeSleepEvents_cons] at hmem
    rcases List.mem_append.mp hmem with h1 | h1
    · by_cases hc : e0.category = "sleep"
      · rcases hS0 : parseTimeToMinutes e0.startTime with _ | sv
        · rw [normalizeSleepEvent_unparsed hc (Or.inl hS0)] at h1
          simp only [List.mem_singleton] at h1
          subst h1
          rw [hS0] at hS
          cases hS
        · rcases hE0 : parseTimeToMinutes e0.endTime with _ | ew
          · rw [normalizeSleepEvent_unparsed hc (Or.inr hE0)] at h1
            simp only [List.mem_singleton] at h1
            subst h1
            rw [hE0] at hE
            cases hE
          · have hr0 := parseTimeToMinutes_range hS0
            have hr1 := parseTimeToMinutes_range hE0
            rcases lt_trichotomy sv ew with hlt | heq | hgt
            · rw [normalizeSleepEvent_sameday hc hS0 hE0 hlt] at h1
              simp only [List.mem_singleton] at h1
              subst h1
              dsimp only at hS hE
              rw [parseTimeToMinutes_minutesToHHMM (by omega) (by omega)] at hS
              rw [parseTimeToMinutes_minutesToHHMM (by omega) (by omega)] at hE
              injection hS with hps
              injection hE with hpe
              omega
            · rw [heq] at hS0
              rw [normalizeSleepEvent_sameday_zero hc hS0 hE0] at h1
              simp at h1
            · by_cases hpos : 0 < ew
              · rw [normalizeSleepEvent_cross hc hS0 hE0 hgt hpos] at h1
                simp only [List.mem_singleton] at h1
                subst h1
                dsimp only at hS hE
                rw [show parseTimeToMinutes "00:00" = some 0 by decide] at hS
                rw [parseTimeToMinutes_minutesToHHMM (by omega) (by omega)] at hE
                injection hS with hps
                injection hE with hpe
                omega
              · rw [normalizeSleepEvent_cross_endZero hc hS0 hE0 hgt (by omega)] at h1
                simp at h1
      · rw [normalizeSleepEvent_nonSleep hc] at h1
        simp only [List.mem_singleton] at h1
        subst h1
        exact absurd hcat hc
    · exact ih h1

/-- C9 (amended): every event of category sleep with validly parsed times in
the normalized day (the event set that the POST handler stores and returns)
satisfies start ≤ end; non-sleep events and sleep events with unparseable
times are stored exactly as the summarizer produced them and are not subject
to this guarantee. -/
theorem c9_stored_sleep_ordered (a : DayAnalysis) (ev : DayEvent)
    (hmem : ev ∈ (normalizeSleepForDay a).events)
    (hcat : ev.category = "sleep") (ps pe : Int)
    (hS : parseTimeToMinutes ev.startTime = some ps)
    (hE : parseTimeToMinutes ev.endTime = some pe) :
    ps ≤ pe :=
  normalizedEvents_sleep_ordered
    (by rw [normalizeSleepForDay_events] at hmem; exact hmem) hcat hS hE

/-- C9 counterexample: an ingestion whose summarizer output contains a
cross-midnight non-sleep event (waste, 23:00-01:00) commits successfully and
stores that event unchanged, so the stored day contains an event whose start
time 1380 exceeds its end time 60. -/
theorem c9_counterexample :
    resultOk (runPost none c4Store0 "2025-01-11" "recap" c9Raw) = true ∧
    storedEventsOf (resultStore (runPost none c4Store0 "2025-01-11" "recap" c9Raw))
        "2025-01-11"
      = [{ label := "Doomscrolling", category := "waste",
           startTime := some "23:00", endTime := some "01:00", notes := none }] ∧
    parseTimeToMinutes "23:00" = some 1380 ∧
    parseTimeToMinutes "01:00" = some 60 := by decide

/-- C9 witness: the normalized day for a 01:00-07:00 sleep event keeps that
event, and its parsed times satisfy 60 ≤ 420. -/
theorem c9_witness :
    (60 : Int) ≤ 420 ∧ c9wEv ∈ (normalizeSleepForDay c9wAnalysis).events :=
  ⟨c9_stored_sleep_ordered c9wAnalysis c9wEv (by decide) (by decide) 60 420
     (by decide) (by decide),
   by decide⟩

/- ------------------------------------------------------------------ -/
/- Store lemmas and the patch characterization                         -/
/- ------------------------------------------------------------------ -/

theorem stepWrite_none (label : String) (f : Store → Store) (s : Store) :
    stepWrite none label f s = .ok (f s) := rfl

theorem stepWriteNonfatal_none (label : String) (f : Store → Store) (s : Store) :
    stepWriteNonfatal none label f s = f s := rfl

theorem Store.getDay_insertDay_self (s : Store) (d : DayRec)
    (h : s.getDay d.date = none) : (s.insertDay d).getDay d.date = some d := by
  unfold Store.getDay at h ⊢
  unfold Store.insertDay
  simp only []
  rw [List.find?_append, h]
  simp [List.find?_cons_of_pos]

theorem Store.getDay_modifyDay_self (s : Store) (date : String) (f : DayRec → DayRec)
    (hf : ∀ d, (f d).date = d.date) :
    (s.modifyDay date f).getDay date = (s.getDay date).map f := by
  unfold Store.getDay Store.modifyDay
  simp only []
  induction s.days with
  | nil => rfl
  | cons d l ih =>
    by_cases hd : (d.date == date) = true
    · simp only [List.map_cons, if_pos hd]
      rw [List.find?_cons_of_pos (p := fun x : DayRec => x.date == date) _ (by simp only [hf d]; exact hd)]
      rw [List.find?_cons_of_pos (p := fun x : DayRec => x.date == date) _ hd]
      rfl
    · simp only [List.map_cons, if_neg hd]
      rw [List.find?_cons_of_neg (p := fun x : DayRec => x.date == date) _ (by simpa using hd)]
      rw [List.find?_cons_of_neg (p := fun x : DayRec => x.date == date) _ (by simpa using hd)]
      exact ih

theorem applyPrevDaySleepPatch_getDay_prev (store : Store) (thisDate prevDate : String)
    (seg0 : PrevDaySleepSegment) (segRest : List PrevDaySleepSegment) (base : DayRec)
    (hprev : getPreviousDateString thisDate = some prevDate)
    (hbase : store.getDay prevDate = some base
      ∨ (store.getDay prevDate = none ∧ base = stubDay prevDate)) :
    (applyPrevDaySleepPatch store thisDate (seg0 :: segRest)).getDay prevDate
      = some { base with
          metrics := some
            { productive := base.metrics.bind (fun m => m.productive),
              neutral := base.metrics.bind (fun m => m.neutral),
              wasted := base.metrics.bind (fun m => m.wasted),
              sleep := some
                ((match base.metrics with
                  | some m =>
                    match m.sleep with
                    | some q => if q = 0 then 0 else q
                    | none => 0
                  | none => 0)
                  + ((carriedExtraMinutes (seg0 :: segRest) : Int) : ℚ) / 60),
              focusBlocks := base.metrics.bind (fun m => m.focusBlocks),
              contextSwitches := base.metrics.bind (fun m => m.contextSwitches) },
          events := base.events.filter (fun e2 => e2.label != carryoverLabel thisDate)
                      ++ [carryoverEvent thisDate (earliestSegmentStart seg0 segRest)] } := by
  unfold applyPrevDaySleepPatch applyPrevDaySleepPatchF
  rw [hprev]
  dsimp only
  rcases hbase with hsome | ⟨hnone, hstubeq⟩
  · rw [hsome]
    simp only [stepWrite_none, stepWriteNonfatal_none, ite_self, Except.bind,
      bind]
    rw [Store.getDay_modifyDay_self, Store.getDay_modifyDay_self,
      Store.getDay_modifyDay_self, hsome]
    · rfl
    · intro d; rfl
    · intro d; rfl
    · intro d; rfl
  · subst hstubeq
    rw [hnone]
    simp only [stepWrite_none, stepWriteNonfatal_none, ite_self, Except.bind,
      bind]
    rw [Store.getDay_modifyDay_self, Store.getDay_modifyDay_self,
      Store.getDay_modifyDay_self,
      show (store.insertDay (stubDay prevDate)).getDay prevDate
        = some (stubDay prevDate) from Store.getDay_insertDay_self store (stubDay prevDate) hnone]
    · rfl
    · intro d; rfl
    · intro d; rfl
    · intro d; rfl

theorem carriedExtraMinutes_eq_sum (segs : List PrevDaySleepSegment)
    (h : ∀ sg ∈ segs, sg.startMinutes ≤ sg.endMinutes) :
    carriedExtraMinutes segs
      = (segs.map (fun sg => sg.endMinutes - sg.startMinutes)).sum := by
  unfold carriedExtraMinutes
  have aux : ∀ (l : List PrevDaySleepSegment) (a : Int),
      (∀ sg ∈ l, sg.startMinutes ≤ sg.endMinutes) →
      l.foldl (fun sum sg => sum + max 0 (sg.endMinutes - sg.startMinutes)) a
        = a + (l.map (fun sg => sg.endMinutes - sg.startMinutes)).sum := by
    intro l
    induction l with
    | nil =>
      intro a _
      simp
    | cons x xs ih =>
      intro a hl
      simp only [List.foldl_cons, List.map_cons, List.sum_cons]
      rw [ih _ (fun sg hs => hl sg (List.mem_cons_of_mem _ hs))]
      have hx := hl x (List.mem_cons_self _ _)
      rw [show max 0 (x.endMinutes - x.startMinutes) = x.endMinutes - x.startMinutes
        by omega]
      ring
  rw [aux segs 0 h]
  ring

theorem foldlMinStart_le (a : Int) (l : List PrevDaySleepSegment) :
    l.foldl (fun acc sg => min acc sg.startMinutes) a ≤ a
    ∧ ∀ sg ∈ l, l.foldl (fun acc sg => min acc sg.startMinutes) a ≤ sg.startMinutes := by
  induction l generalizing a with
  | nil =>
    exact ⟨le_rfl, by simp⟩
  | cons x xs ih =>
    simp only [List.foldl_cons]
    constructor
    · exact le_trans (ih (min a x.startMinutes)).1 (min_le_left _ _)
    · intro sg hsg
      rcases List.mem_cons.mp hsg with h | h
      · rw [h]
        exact le_trans (ih (min a x.startMinutes)).1 (min_le_right _ _)
      · exact (ih (min a x.startMinutes)).2 sg h

theorem foldlMinStart_mem (a : Int) (l : List PrevDaySleepSegment) :
    l.foldl (fun acc sg => min acc sg.startMinutes) a = a
    ∨ l.foldl (fun acc sg => min acc sg.startMinutes) a
        ∈ l.map (fun sg => sg.startMinutes) := by
  induction l generalizing a with
  | nil => exact Or.inl rfl
  | cons x xs ih =>
    simp only [List.foldl_cons, List.map_cons]
    rcases ih (min a x.startMinutes) with h | h
    · rw [h]
      rcases min_choice a x.startMinutes with hm | hm
      · exact Or.inl hm
      · rw [hm]
        exact Or.inr (List.mem_cons_self _ _)
    · exact Or.inr (List.mem_cons_of_mem _ h)

theorem earliestSegmentStart_range (seg0 : PrevDaySleepSegment)
    (segRest : List PrevDaySleepSegment)
    (hrange : ∀ sg ∈ seg0 :: segRest, 0 ≤ sg.startMinutes ∧ sg.startMinutes ≤ 1439) :
    0 ≤ earliestSegmentStart seg0 segRest ∧ earliestSegmentStart seg0 segRest ≤ 1439 := by
  unfold earliestSegmentStart
  rcases foldlMinStart_mem seg0.startMinutes segRest with h | h
  · rw [h]
    exact hrange seg0 (List.mem_cons_self _ _)
  · rcases List.mem_map.mp h with ⟨sg, hsg, heq⟩
    rw [← heq]
    exact hrange sg (List.mem_cons_of_mem _ hsg)

theorem exists_base_day (store : Store) (prevDate : String) :
    ∃ base : DayRec,
      (store.getDay prevDate = some base
        ∨ (store.getDay prevDate = none ∧ base = stubDay prevDate))
      ∧ base.metrics = prevDayMetrics store prevDate
      ∧ base.events = storedEventsOf store prevDate := by
  rcases hgd : store.getDay prevDate with _ | b
  · refine ⟨stubDay prevDate, Or.inr ⟨rfl, rfl⟩, ?_, ?_⟩
    · unfold prevDayMetrics
      rw [hgd]
      rfl
    · unfold storedEventsOf
      rw [hgd]
      rfl
  · refine ⟨b, Or.inl rfl, ?_, ?_⟩
    · unfold prevDayMetrics
      rw [hgd]
      rfl
    · unfold storedEventsOf
      rw [hgd]

theorem truthy_sleep_eq (om : Option MetricsRow) :
    (match om with
     | some m =>
       match m.sleep with
       | some q => if q = 0 then 0 else q
       | none => 0
     | none => (0 : ℚ))
      = (match om.bind (fun m => m.sleep) with
         | some q => q
         | none => (0 : ℚ)) := by
  rcases om with _ | m
  · rfl
  · simp only [Option.some_bind]
    rcases m.sleep with _ | q
    · rfl
    · dsimp only
      by_cases h0 : q = 0
      · rw [if_pos h0, h0]
      · rw [if_neg h0]

/- ------------------------------------------------------------------ -/
/- Claim C7                                                            -/
/- ------------------------------------------------------------------ -/

/-- C7: applying the Cross-Day Patcher with a non-empty segment list (whose
segments satisfy start ≤ end, as every extractor-produced segment does) sets
D-1's stored sleep hours to its prior value (a missing row or null column
read as 0) plus the sum over all segments of (end − start) converted to
hours — additive, never overwritten — while every other metric field of D-1
(productive, neutral, wasted hours, focus blocks, context switches) keeps its
prior stored value. -/
theorem c7_patch_additive_frame (store : Store) (thisDate prevDate : String)
    (seg0 : PrevDaySleepSegment) (segRest : List PrevDaySleepSegment)
    (hprev : getPreviousDateString thisDate = some prevDate)
    (hseg : ∀ sg ∈ seg0 :: segRest, sg.startMinutes ≤ sg.endMinutes) :
    ∃ m : MetricsRow,
      prevDayMetrics (applyPrevDaySleepPatch store thisDate (seg0 :: segRest)) prevDate
        = some m
      ∧ m.sleep = some (storedSleepOrZero store prevDate
          + ((((seg0 :: segRest).map (fun sg => sg.endMinutes - sg.startMinutes)).sum
              : Int) : ℚ) / 60)
      ∧ m.productive = (prevDayMetrics store prevDate).bind (fun x => x.productive)
      ∧ m.neutral = (prevDayMetrics store prevDate).bind (fun x => x.neutral)
      ∧ m.wasted = (prevDayMetrics store prevDate).bind (fun x => x.wasted)
      ∧ m.focusBlocks = (prevDayMetrics store prevDate).bind (fun x => x.focusBlocks)
      ∧ m.contextSwitches = (prevDayMetrics store prevDate).bind (fun x => x.contextSwitches) := by
  obtain ⟨base, hbase, hbm, _⟩ := exists_base_day store prevDate
  have hm := applyPrevDaySleepPatch_getDay_prev store thisDate prevDate seg0 segRest
    base hprev hbase
  have hsum := carriedExtraMinutes_eq_sum (seg0 :: segRest) hseg
  refine ⟨{ productive := base.metrics.bind (fun m => m.productive),
            neutral := base.metrics.bind (fun m => m.neutral),
            wasted := base.metrics.bind (fun m => m.wasted),
            sleep := some
              ((match base.metrics with
                | some m =>
                  match m.sleep with
                  | some q => if q = 0 then 0 else q
                  | none => 0
                | none => 0)
                + ((carriedExtraMinutes (seg0 :: segRest) : Int) : ℚ) / 60),
            focusBlocks := base.metrics.bind (fun m => m.focusBlocks),
            contextSwitches := base.metrics.bind (fun m => m.contextSwitches) },
    ?_, ?_, ?_, ?_, ?_, ?_, ?_⟩
  · unfold prevDayMetrics
    rw [hm]
    rfl
  · dsimp only
    rw [truthy_sleep_eq base.metrics, hbm, hsum]
    rfl
  · dsimp only
    rw [hbm]
  · dsimp only
    rw [hbm]
  · dsimp only
    rw [hbm]
  · dsimp only
    rw [hbm]
  · dsimp only
    rw [hbm]

/-- C7 witness: on a previous day storing 6 sleep hours, the carryover
segment [1380, 1440) adds exactly one hour, yielding 7. -/
theorem c7_witness :
    (prevDayMetrics (applyPrevDaySleepPatch c7Store "2025-01-11" [c7Seg0])
        "2025-01-10").bind (fun m => m.sleep) = some 7 := by
  obtain ⟨m, hm, hs, _, _, _, _, _⟩ :=
    c7_patch_additive_frame c7Store "2025-01-11" "2025-01-10" c7Seg0 []
      (by decide) (by decide)
  rw [hm, Option.some_bind, hs]
  norm_num [storedSleepOrZero, prevDayMetrics, c7Store, Store.getDay, c7Seg0,
    List.find?]

/- ------------------------------------------------------------------ -/
/- Claim C8                                                            -/
/- ------------------------------------------------------------------ -/

/-- C8: with a non-empty segment list (segment starts in [0, 1439], as the
extractor guarantees), the patcher writes D-1's event set by deleting any
existing event labelled with the deterministic carryover label — which
injectively encodes the target date D — and then inserting the synthetic
event: category sleep, start time rendering the earliest segment start (it
parses back to that exact minute value), and end time 23:59, never 24:00. -/
theorem c8_carryover_event (store : Store) (thisDate prevDate : String)
    (seg0 : PrevDaySleepSegment) (segRest : List PrevDaySleepSegment)
    (hprev : getPreviousDateString thisDate = some prevDate)
    (hrange : ∀ sg ∈ seg0 :: segRest, 0 ≤ sg.startMinutes ∧ sg.startMinutes ≤ 1439) :
    storedEventsOf (applyPrevDaySleepPatch store thisDate (seg0 :: segRest)) prevDate
      = (storedEventsOf store prevDate).filter
          (fun e2 => e2.label != carryoverLabel thisDate)
        ++ [carryoverEvent thisDate (earliestSegmentStart seg0 segRest)]
    ∧ (carryoverEvent thisDate (earliestSegmentStart seg0 segRest)).category = "sleep"
    ∧ (carryoverEvent thisDate (earliestSegmentStart seg0 segRest)).endTime = some "23:59"
    ∧ (carryoverEvent thisDate (earliestSegmentStart seg0 segRest)).startTime
        = some (minutesToHHMM (earliestSegmentStart seg0 segRest))
    ∧ parseTimeToMinutes (minutesToHHMM (earliestSegmentStart seg0 segRest))
        = some (earliestSegmentStart seg0 segRest)
    ∧ earliestSegmentStart seg0 segRest
        ∈ (seg0 :: segRest).map (fun sg => sg.startMinutes)
    ∧ (∀ sg ∈ seg0 :: segRest, earliestSegmentStart seg0 segRest ≤ sg.startMinutes)
    ∧ (∀ d1 d2 : String, carryoverLabel d1 = carryoverLabel d2 → d1 = d2) := by
  obtain ⟨base, hbase, _, hbe⟩ := exists_base_day store prevDate
  have hm := applyPrevDaySleepPatch_getDay_prev store thisDate prevDate seg0 segRest
    base hprev hbase
  have hr := earliestSegmentStart_range seg0 segRest hrange
  refine ⟨?_, rfl, ?_, rfl, ?_, ?_, ?_, ?_⟩
  · rw [← hbe]
    unfold storedEventsOf
    rw [hm]
  · show some (minutesToHHMM (24 * 60 - 1)) = some "23:59"
    rw [show minutesToHHMM (24 * 60 - 1) = "23:59" by decide]
  · exact parseTimeToMinutes_minutesToHHMM hr.1 hr.2
  · unfold earliestSegmentStart
    rcases foldlMinStart_mem seg0.startMinutes segRest with h | h
    · rw [h]
      exact List.mem_map.mpr ⟨seg0, List.mem_cons_self _ _, rfl⟩
    · rcases List.mem_map.mp h with ⟨sg, hsg, heq⟩
      exact List.mem_map.mpr ⟨sg, List.mem_cons_of_mem _ hsg, heq⟩
  · intro sg hsg
    unfold earliestSegmentStart
    rcases List.mem_cons.mp hsg with h | h
    · rw [h]
      exact (foldlMinStart_le seg0.startMinutes segRest).1
    · exact (foldlMinStart_le seg0.startMinutes segRest).2 sg h
  · intro d1 d2 h
    unfold carryoverLabel at h
    have h2 := congrArg String.data h
    rw [String.data_append, String.data_append, String.data_append,
      String.data_append] at h2
    rw [List.append_assoc, List.append_assoc] at h2
    have h3 := List.append_cancel_left h2
    have h4 := List.append_cancel_right h3
    exact String.ext h4

/-- C8 witness: patching a previous day that already holds a stale carryover
event for the same target date replaces it (the dinner event survives, the
old carryover is deleted, the new one is appended), and the new start time
string parses back to the earliest segment start. -/
theorem c8_witness :
    storedEventsOf (applyPrevDaySleepPatch c8Store "2025-01-11" [c8Seg0]) "2025-01-10"
      = (storedEventsOf c8Store "2025-01-10").filter
          (fun e2 => e2.label != carryoverLabel "2025-01-11")
        ++ [carryoverEvent "2025-01-11" (earliestSegmentStart c8Seg0 [])]
    ∧ parseTimeToMinutes (minutesToHHMM (earliestSegmentStart c8Seg0 []))
        = some (earliestSegmentStart c8Seg0 []) :=
  ⟨(c8_carryover_event c8Store "2025-01-11" "2025-01-10" c8Seg0 []
      (by decide) (by decide)).1,
   (c8_carryover_event c8Store "2025-01-11" "2025-01-10" c8Seg0 []
      (by decide) (by decide)).2.2.2.2.1⟩

/- ------------------------------------------------------------------ -/
/- Claim C3                                                            -/
/- ------------------------------------------------------------------ -/

/-- C3 evaluation at the failing input: applying the patch twice with the
same target date 2025-01-11 and the same carryover segment [1380, 1440)
leaves exactly one carryover event on 2025-01-10 (the delete-by-label upsert
prevents duplicates), but the previous day's sleep hours go from 1 to 2 —
the additive update `newSleepHours = existing + extra` runs again on every
re-ingestion, so the patch is not idempotent as the claim requires. -/
theorem c3_double_patch_eval :
    storedSleepOrZero (applyPrevDaySleepPatch c3Store0 "2025-01-11" c3Segs)
        "2025-01-10" = 1
    ∧ storedSleepOrZero
        (applyPrevDaySleepPatch (applyPrevDaySleepPatch c3Store0 "2025-01-11" c3Segs)
          "2025-01-11" c3Segs) "2025-01-10" = 2
    ∧ storedEventsOf
        (applyPrevDaySleepPatch (applyPrevDaySleepPatch c3Store0 "2025-01-11" c3Segs)
          "2025-01-11" c3Segs) "2025-01-10"
      = [carryoverEvent "2025-01-11" 1380] := by
  have hs1 : applyPrevDaySleepPatch c3Store0 "2025-01-11" c3Segs
      = { ownerExists := true,
          days := [{ date := "2025-01-10", transcript := [], summary := none,
                     suggestions := none,
                     metrics := some { productive := none, neutral := none,
                                       wasted := none,
                                       sleep := some (0 + ((60 : Int) : ℚ) / 60),
                                       focusBlocks := none, contextSwitches := none },
                     events := [carryoverEvent "2025-01-11" 1380] }] } := rfl
  rw [show (0 + ((60 : Int) : ℚ) / 60) = 1 by norm_num] at hs1
  have hs2 : applyPrevDaySleepPatch (applyPrevDaySleepPatch c3Store0 "2025-01-11" c3Segs)
      "2025-01-11" c3Segs
      = { ownerExists := true,
          days := [{ date := "2025-01-10", transcript := [], summary := none,
                     suggestions := none,
                     metrics := some { productive := none, neutral := none,
                                       wasted := none,
                                       sleep := some ((1 : ℚ) + ((60 : Int) : ℚ) / 60),
                                       focusBlocks := none, contextSwitches := none },
                     events := [carryoverEvent "2025-01-11" 1380] }] } := by
    rw [hs1]
    rfl
  rw [show ((1 : ℚ) + ((60 : Int) : ℚ) / 60) = 2 by norm_num] at hs2
  refine ⟨?_, ?_, ?_⟩
  · rw [hs1]
    rfl
  · rw [hs2]
    rfl
  · rw [hs2]
    rfl

/- ------------------------------------------------------------------ -/
/- Claim C4                                                            -/
/- ------------------------------------------------------------------ -/

/-- C4 evaluation at the failing input: an ingestion for 2025-01-11 whose
summarizer output contains a cross-midnight sleep event 23:00-07:00 patches
2025-01-10 first; when the subsequent day upsert for 2025-01-11 fails, the
request aborts with the previous day already patched (one extra sleep hour
and a carryover event committed) while 2025-01-11 was never written — the
failed call does not leave both dates as they were before it. -/
theorem c4_failed_ingestion_eval :
    resultOk (runPost (some "upsertDay") c4Store0 "2025-01-11" "woke at 7" c4Raw)
      = false
    ∧ (resultStore (runPost (some "upsertDay") c4Store0 "2025-01-11" "woke at 7" c4Raw)).getDay
        "2025-01-11" = none
    ∧ c4Store0.getDay "2025-01-10" = none
    ∧ storedSleepOrZero
        (resultStore (runPost (some "upsertDay") c4Store0 "2025-01-11" "woke at 7" c4Raw))
        "2025-01-10" = 1
    ∧ storedEventsOf
        (resultStore (runPost (some "upsertDay") c4Store0 "2025-01-11" "woke at 7" c4Raw))
        "2025-01-10"
      = [carryoverEvent "2025-01-11" 1380] := by
  have hrs : resultStore (runPost (some "upsertDay") c4Store0 "2025-01-11" "woke at 7" c4Raw)
      = { ownerExists := true,
          days := [{ date := "2025-01-10", transcript := [], summary := none,
                     suggestions := none,
                     metrics := some { productive := none, neutral := none,
                                       wasted := none,
                                       sleep := some (0 + ((60 : Int) : ℚ) / 60),
                                       focusBlocks := none, contextSwitches := none },
                     events := [carryoverEvent "2025-01-11" 1380] }] } := rfl
  rw [show (0 + ((60 : Int) : ℚ) / 60) = 1 by norm_num] at hrs
  refine ⟨rfl, ?_, rfl, ?_, ?_⟩
  · rw [hrs]
    rfl
  · rw [hrs]
    rfl
  · rw [hrs]
    rfl

/-- A decimal digit character has code point between 48 and 57. -/
theorem digit_toNat_bounds {c : Char} (h : c.isDigit = true) :
    48 ≤ c.toNat ∧ c.toNat ≤ 57 := by
  simp [Char.isDigit] at h
  exact h

/-- ASCII whitespace is ECMAScript whitespace. -/
theorem isWs_imp_jsWs {c : Char} (h : isWsChar c = true) : isJsWsChar c = true := by
  simp only [isWsChar, Bool.or_eq_true, decide_eq_true_eq] at h
  rcases h with ((rfl | rfl) | rfl) | rfl <;> decide

/-- A decimal digit is not ECMAScript whitespace. -/
theorem digit_not_jsWs {c : Char} (h : c.isDigit = true) : isJsWsChar c = false := by
  have hb := digit_toNat_bounds h
  simp only [isJsWsChar, Bool.or_eq_false_iff, Bool.and_eq_false_iff,
    decide_eq_false_iff_not]
  omega

/-- A character equal to a given non-digit is not a digit (rules the digit
strings of the integer fragment out of the sign, radix-prefix,
exponent-marker and decimal-point cases). -/
theorem digit_ne_of_not_digit {c d : Char} (h : c.isDigit = true)
    (hd : d.isDigit = false) : c ≠ d := by
  intro he
  rw [he, hd] at h
  cases h

/-- Dropping while `p` holds skips a prefix on which `p` holds everywhere. -/
theorem dropWhile_append_of_all {p : Char → Bool} {l1 l2 : List Char}
    (h : ∀ a ∈ l1, p a = true) :
    (l1 ++ l2).dropWhile p = l2.dropWhile p := by
  induction l1 with
  | nil => rfl
  | cons a l ih =>
    rw [List.cons_append, List.dropWhile_cons,
      if_pos (h a (List.mem_cons_self a l))]
    exact ih (fun b hb => h b (List.mem_cons_of_mem a hb))

/-- The first character surviving `dropWhile` fails the predicate. -/
theorem dropWhile_head_false {p : Char → Bool} {l : List Char} {c : Char}
    {r : List Char} (h : l.dropWhile p = c :: r) : p c = false := by
  induction l with
  | nil => cases h
  | cons a t ih =>
    rw [List.dropWhile_cons] at h
    by_cases hp : p a = true
    · rw [if_pos hp] at h
      exact ih h
    · rw [if_neg hp] at h
      injection h with h1 _
      subst h1
      exact Bool.eq_false_iff.mpr hp

/-- If ASCII trimming empties a string, every character is ASCII
whitespace. -/
theorem trimWs_nil_all {cs : List Char} (h : trimWs cs = []) :
    ∀ c ∈ cs, isWsChar c = true := by
  unfold trimWs at h
  have h1 : (cs.dropWhile isWsChar).reverse.dropWhile isWsChar = [] := by
    have h2 := congrArg List.reverse h
    rwa [List.reverse_reverse, List.reverse_nil] at h2
  have h2 : ∀ c ∈ cs.dropWhile isWsChar, isWsChar c = true := by
    intro c hc
    exact List.dropWhile_eq_nil_iff.mp h1 c (List.mem_reverse.mpr hc)
  have h3 : cs.dropWhile isWsChar = [] := by
    rcases hx : cs.dropWhile isWsChar with _ | ⟨d, r⟩
    · rfl
    · have hd := dropWhile_head_false hx
      have hd2 := h2 d (by rw [hx]; exact List.mem_cons_self d r)
      rw [hd] at hd2
      cases hd2
  exact List.dropWhile_eq_nil_iff.mp h3

/-- A string emptied by ASCII trimming is emptied by Unicode trimming. -/
theorem trimWsJs_nil {cs : List Char} (h : trimWs cs = []) : trimWsJs cs = [] := by
  have h1 : cs.dropWhile isJsWsChar = [] :=
    List.dropWhile_eq_nil_iff.mpr (fun c hc => isWs_imp_jsWs (trimWs_nil_all h c hc))
  unfold trimWsJs
  rw [h1]
  rfl

/-- When the ASCII-trimmed residue neither starts nor ends in an ECMAScript
whitespace character, Unicode trimming gives the same residue. -/
theorem trimWsJs_eq_of_trimWs {cs : List Char} {c : Char} {r : List Char}
    (ht : trimWs cs = c :: r)
    (hhead : isJsWsChar c = false)
    (hlast : ∀ d, (c :: r).getLast? = some d → isJsWsChar d = false) :
    trimWsJs cs = c :: r := by
  have hx : (cs.dropWhile isWsChar).reverse.dropWhile isWsChar = (c :: r).reverse := by
    unfold trimWs at ht
    have h2 := congrArg List.reverse ht
    rwa [List.reverse_reverse] at h2
  have hdecomp : (cs.dropWhile isWsChar).reverse
      = (cs.dropWhile isWsChar).reverse.takeWhile isWsChar ++ (c :: r).reverse := by
    conv_lhs => rw [← List.takeWhile_append_dropWhile isWsChar (cs.dropWhile isWsChar).reverse]
    rw [hx]
  have hxeq : cs.dropWhile isWsChar
      = (c :: r) ++ ((cs.dropWhile isWsChar).reverse.takeWhile isWsChar).reverse := by
    have h2 := congrArg List.reverse hdecomp
    rwa [List.reverse_reverse, List.reverse_append, List.reverse_reverse] at h2
  have hcs : cs = cs.takeWhile isWsChar
      ++ ((c :: r) ++ ((cs.dropWhile isWsChar).reverse.takeWhile isWsChar).reverse) := by
    conv_lhs => rw [← List.takeWhile_append_dropWhile isWsChar cs]
    rw [← hxeq]
  unfold trimWsJs
  have s1 : cs.dropWhile isJsWsChar
      = (c :: r) ++ ((cs.dropWhile isWsChar).reverse.takeWhile isWsChar).reverse := by
    conv_lhs => rw [hcs]
    rw [dropWhile_append_of_all (fun a ha => isWs_imp_jsWs (List.mem_takeWhile_imp ha))]
    rw [List.cons_append, List.dropWhile_cons, if_neg (by simp [hhead])]
  have s2 : (((c :: r)
        ++ ((cs.dropWhile isWsChar).reverse.takeWhile isWsChar).reverse)).reverse
      = (cs.dropWhile isWsChar).reverse.takeWhile isWsChar ++ (c :: r).reverse := by
    rw [List.reverse_append, List.reverse_reverse]
  have s3 : ((cs.dropWhile isWsChar).reverse.takeWhile isWsChar
        ++ (c :: r).reverse).dropWhile isJsWsChar = (c :: r).reverse := by
    rw [dropWhile_append_of_all
      (fun a ha => isWs_imp_jsWs (List.mem_takeWhile_imp
        (by { have h2 : a ∈ (cs.dropWhile isWsChar).reverse.takeWhile isWsChar := ha; exact h2 })))]
    rcases hrev : (c :: r).reverse with _ | ⟨d, s⟩
    · exfalso
      have h2 := congrArg List.length hrev
      simp at h2
    · have hd : (c :: r).getLast? = some d := by
        rw [← List.head?_reverse, hrev]
        rfl
      rw [List.dropWhile_cons, if_neg (by simp [hlast d hd])]
  rw [s1, s2, s3, List.reverse_reverse]

/-- Inversion for `parseDigits`: the list is nonempty, all digits, and the
value is the base-10 fold. -/
theorem parseDigits_eq_some {cs : List Char} {n : Nat}
    (h : parseDigits cs = some n) :
    cs ≠ [] ∧ (∀ c ∈ cs, c.isDigit = true)
      ∧ n = cs.foldl (fun a c => 10 * a + (c.toNat - 48)) 0 := by
  unfold parseDigits at h
  by_cases he : cs.isEmpty = true
  · rw [if_pos he] at h
    cases h
  · rw [if_neg he] at h
    by_cases hall : cs.all Char.isDigit = true
    · rw [if_pos hall] at h
      injection h with h
      refine ⟨?_, List.all_eq_true.mp hall, h.symm⟩
      intro hnil
      rw [hnil] at he
      exact he rfl
    · rw [if_neg hall] at h
      cases h

/-- A numeral with no exponent marker is all mantissa. -/
theorem splitExponent_no_e {cs : List Char}
    (h : ∀ c ∈ cs, ¬(c = 'e' ∨ c = 'E')) : splitExponent cs = (cs, none) := by
  induction cs with
  | nil => rfl
  | cons c rest ih =>
    unfold splitExponent
    rw [if_neg (h c (List.mem_cons_self c rest))]
    rw [ih (fun x hx => h x (List.mem_cons_of_mem c hx))]

/-- On a nonempty all-digit list the mantissa is the plain base-10 value. -/
theorem parseMantissa_digits {cs : List Char} (hne : cs ≠ [])
    (hdig : ∀ c ∈ cs, c.isDigit = true) :
    parseMantissa cs
      = some ((cs.foldl (fun a c => 10 * a + (c.toNat - 48)) 0 : Nat) : ℚ) := by
  have hsplit : splitOnChar '.' cs = [cs] :=
    splitOnChar_of_not_mem (fun c hc => digit_ne_of_not_digit (hdig c hc) (by decide))
  unfold parseMantissa
  rw [hsplit]
  dsimp only
  have he : cs.isEmpty = false := by
    rcases cs with _ | ⟨c, r⟩
    · exact absurd rfl hne
    · rfl
  rw [if_neg (by simp [he]), if_pos (List.all_eq_true.mpr hdig)]

/-- An all-digit list never carries a radix prefix. -/
theorem nonDecimalRadix_of_digits {cs : List Char}
    (hdig : ∀ c ∈ cs, c.isDigit = true) : nonDecimalRadix cs = none := by
  rcases cs with _ | ⟨c1, rest⟩
  · rfl
  · rcases rest with _ | ⟨c2, r⟩
    · unfold nonDecimalRadix
      split
      · rename_i heq
        exfalso
        have hl := congrArg List.length heq
        simp at hl
      · rfl
    · have h2 : c2.isDigit = true := hdig c2 (by simp)
      unfold nonDecimalRadix
      split
      · rename_i heq
        injection heq with heq1 heq2
        injection heq2 with heq2 heq3
        subst heq2
        rw [if_neg, if_neg, if_neg]
        · rintro (rfl | rfl) <;> simp at h2
        · rintro (rfl | rfl) <;> simp at h2
        · rintro (rfl | rfl) <;> simp at h2
      · rfl

/-- On a nonempty all-digit list the unsigned decimal parse is the plain
base-10 value. -/
theorem parseStrUnsignedDecimal_digits {cs : List Char} (hne : cs ≠ [])
    (hdig : ∀ c ∈ cs, c.isDigit = true) :
    parseStrUnsignedDecimal cs
      = some ((cs.foldl (fun a c => 10 * a + (c.toNat - 48)) 0 : Nat) : ℚ) := by
  have hsplit : splitExponent cs = (cs, none) := by
    refine splitExponent_no_e (fun c hc => ?_)
    rintro (rfl | rfl) <;> simpa using hdig _ hc
  unfold parseStrUnsignedDecimal
  rw [hsplit]
  exact parseMantissa_digits hne hdig

/-- The full coercion on a string whose Unicode-trimmed residue is a nonempty
digit string. -/
theorem jsFiniteNumber_of_trim_digits {cs ds : List Char}
    (htr : trimWsJs cs = ds) (hne : ds ≠ [])
    (hdig : ∀ c ∈ ds, c.isDigit = true) :
    jsFiniteNumber cs
      = some ((ds.foldl (fun a c => 10 * a + (c.toNat - 48)) 0 : Nat) : ℚ) := by
  unfold jsFiniteNumber
  rw [htr]
  rcases ds with _ | ⟨c, rest⟩
  · exact absurd rfl hne
  · dsimp only
    have hc : c.isDigit = true := hdig c (List.mem_cons_self c rest)
    rw [if_neg (digit_ne_of_not_digit hc (by decide)),
      if_neg (digit_ne_of_not_digit hc (by decide)),
      nonDecimalRadix_of_digits hdig]
    exact parseStrUnsignedDecimal_digits (by simp) hdig

/-- The full coercion on a string whose Unicode-trimmed residue is a minus
sign followed by digits. -/
theorem jsFiniteNumber_of_trim_neg {cs rest : List Char}
    (htr : trimWsJs cs = '-' :: rest) (hne : rest ≠ [])
    (hdig : ∀ c ∈ rest, c.isDigit = true) :
    jsFiniteNumber cs
      = some (-((rest.foldl (fun a c => 10 * a + (c.toNat - 48)) 0 : Nat) : ℚ)) := by
  unfold jsFiniteNumber
  rw [htr]
  dsimp only
  rw [if_neg (by decide), if_pos rfl, parseStrUnsignedDecimal_digits hne hdig]
  rfl

/-- The full coercion on a string whose Unicode-trimmed residue is a plus
sign followed by digits. -/
theorem jsFiniteNumber_of_trim_pos {cs rest : List Char}
    (htr : trimWsJs cs = '+' :: rest) (hne : rest ≠ [])
    (hdig : ∀ c ∈ rest, c.isDigit = true) :
    jsFiniteNumber cs
      = some ((rest.foldl (fun a c => 10 * a + (c.toNat - 48)) 0 : Nat) : ℚ) := by
  unfold jsFiniteNumber
  rw [htr]
  dsimp only
  rw [if_pos rfl, parseStrUnsignedDecimal_digits hne hdig]

/-- The integer fragment is a restriction of the full finite coercion: every
string `jsNumberChars` accepts, `jsFiniteNumber` accepts with the same
value. -/
theorem jsNumberChars_imp_finite {cs : List Char} {v : Int}
    (h : jsNumberChars cs = some v) : jsFiniteNumber cs = some ((v : Int) : ℚ) := by
  unfold jsNumberChars at h
  rcases htr : trimWs cs with _ | ⟨c, rest⟩ <;> rw [htr] at h
  · injection h with h
    subst h
    unfold jsFiniteNumber
    rw [trimWsJs_nil htr]
    norm_num
  · split at h
    · rename_i heq
      exact absurd heq (List.cons_ne_nil c rest)
    · rename_i r heq
      injection heq with heq1 heq2
      subst heq1
      subst heq2
      obtain ⟨n, hn, hv⟩ := Option.map_eq_some'.mp h
      obtain ⟨a, ha, hpa⟩ := Option.bind_eq_some.mp hn
      injection hpa with hpa
      obtain ⟨hne, hdig, hval⟩ := parseDigits_eq_some ha
      have hlast : ∀ d, ('-' :: rest).getLast? = some d → isJsWsChar d = false := by
        intro d hd
        rcases List.mem_cons.mp (List.mem_of_mem_getLast? hd) with rfl | hmem2
        · decide
        · exact digit_not_jsWs (hdig d hmem2)
      rw [jsFiniteNumber_of_trim_neg (trimWsJs_eq_of_trimWs htr (by decide) hlast) hne hdig]
      rw [← hval, ← hv, ← hpa]
      simp only [Option.some.injEq]
      push_cast
      ring
    · rename_i r heq
      injection heq with heq1 heq2
      subst heq1
      subst heq2
      obtain ⟨n, hn, hv⟩ := Option.map_eq_some'.mp h
      obtain ⟨a, ha, hpa⟩ := Option.bind_eq_some.mp hn
      injection hpa with hpa
      obtain ⟨hne, hdig, hval⟩ := parseDigits_eq_some ha
      have hlast : ∀ d, ('+' :: rest).getLast? = some d → isJsWsChar d = false := by
        intro d hd
        rcases List.mem_cons.mp (List.mem_of_mem_getLast? hd) with rfl | hmem2
        · decide
        · exact digit_not_jsWs (hdig d hmem2)
      rw [jsFiniteNumber_of_trim_pos (trimWsJs_eq_of_trimWs htr (by decide) hlast) hne hdig]
      rw [← hval, ← hv, ← hpa]
      simp only [Option.some.injEq]
      push_cast
      ring
    · obtain ⟨n, hn, hv⟩ := Option.map_eq_some'.mp h
      obtain ⟨a, ha, hpa⟩ := Option.bind_eq_some.mp hn
      injection hpa with hpa
      obtain ⟨hne, hdig, hval⟩ := parseDigits_eq_some ha
      have hc : c.isDigit = true := hdig c (List.mem_cons_self c rest)
      have hlast : ∀ d, (c :: rest).getLast? = some d → isJsWsChar d = false :=
        fun d hd => digit_not_jsWs (hdig d (List.mem_of_mem_getLast? hd))
      rw [jsFiniteNumber_of_trim_digits
        (trimWsJs_eq_of_trimWs htr (digit_not_jsWs hc) hlast) (by simp) hdig]
      rw [← hval, ← hv, ← hpa]
      simp only [Option.some.injEq]
      push_cast
      ring

/-- The integer-minute parse is a restriction of the full-coercion parse:
wherever the pipeline model parses a time, the faithful model parses it to
the same value. -/
theorem parseTimeToMinutes_imp_num {t : String} {v : Int}
    (h : parseTimeToMinutes t = some v) :
    parseTimeToMinutesNum t = some ((v : Int) : ℚ) := by
  unfold parseTimeToMinutes at h
  by_cases hemp : t.data.isEmpty = true
  · rw [if_pos hemp] at h
    cases h
  · rw [if_neg hemp] at h
    simp only [] at h
    unfold parseTimeToMinutesNum
    rw [if_neg hemp]
    simp only []
    rcases hH : jsNumberChars ((splitOnChar ':' t.data).headD []) with _ | hv <;>
      rw [hH] at h <;>
      rcases hM : ((splitOnChar ':' t.data).get? 1).bind jsNumberChars with _ | mv <;>
      rw [hM] at h
    · cases h
    · cases h
    · cases h
    · obtain ⟨fld, hfld, hjs⟩ := Option.bind_eq_some.mp hM
      rw [jsNumberChars_imp_finite hH, hfld]
      have hM2 : (some fld).bind jsFiniteNumber = some ((mv : Int) : ℚ) := by
        simp [jsNumberChars_imp_finite hjs]
      rw [hM2]
      dsimp only at h ⊢
      by_cases hcond : hv < 0 ∨ hv > 23 ∨ mv < 0 ∨ mv > 59
      · rw [if_pos hcond] at h
        cases h
      · rw [if_neg hcond] at h
        injection h with h
        push_neg at hcond
        rw [if_neg (by push_neg; refine ⟨?_, ?_, ?_, ?_⟩ <;> exact_mod_cast (by omega))]
        rw [← h]
        simp only [Option.some.injEq]
        push_cast
        ring

/-- Contrapositive restriction: a time the faithful model rejects, the
pipeline model rejects too. -/
theorem parseTimeToMinutesNum_none {t : String}
    (h : parseTimeToMinutesNum t = none) : parseTimeToMinutes t = none := by
  rcases hp : parseTimeToMinutes t with _ | w
  · rfl
  · rw [parseTimeToMinutes_imp_num hp] at h
    cases h

/- ------------------------------------------------------------------ -/
/- Claim C10                                                           -/
/- ------------------------------------------------------------------ -/

/-- C10: time-string parsing (modelled faithfully by `parseTimeToMinutesNum`
over the full JavaScript number coercion) returns the minutes value
hour*60 + minute exactly when the string is nonempty and its first two
colon-separated fields coerce to finite values with the hour in [0, 23] and
the minute in [0, 59], and returns null otherwise; in particular "24:00" is
malformed (hour 24 fails the range check), and a sleep event with a time the
coercion rejects is retained unmodified in the event list while contributing
neither a same-day sleep segment (hence nothing to sleepHours) nor a
previous-day carryover segment (the pipeline model's integer parse rejects
every such time as well, by `parseTimeToMinutesNum_none`). -/
theorem c10_time_parse_spec (t : String) :
    (parseTimeToMinutesNum t ≠ none
      ↔ t ≠ "" ∧ ∃ hv mv : ℚ,
          jsNumberHourField t = some hv ∧ jsNumberMinuteField t = some mv
          ∧ 0 ≤ hv ∧ hv ≤ 23 ∧ 0 ≤ mv ∧ mv ≤ 59)
    ∧ (∀ hv mv : ℚ, t ≠ ""
        → jsNumberHourField t = some hv → jsNumberMinuteField t = some mv
        → 0 ≤ hv → hv ≤ 23 → 0 ≤ mv → mv ≤ 59
        → parseTimeToMinutesNum t = some (hv * 60 + mv))
    ∧ parseTimeToMinutesNum "24:00" = none
    ∧ (∀ pre post : List DayEvent, ∀ ev : DayEvent, ev.category = "sleep"
        → (parseTimeToMinutesNum ev.startTime = none
            ∨ parseTimeToMinutesNum ev.endTime = none)
        → (normalizeSleepEvents (pre ++ ev :: post)).1
            = (normalizeSleepEvents pre).1 ++ ev :: (normalizeSleepEvents post).1
          ∧ (normalizeSleepEvents (pre ++ ev :: post)).2
            = (normalizeSleepEvents pre).2 ++ (normalizeSleepEvents post).2
          ∧ extractPrevSegsEvents (pre ++ ev :: post)
            = extractPrevSegsEvents pre ++ extractPrevSegsEvents post) := by
  refine ⟨?_, ?_, by decide, ?_⟩
  · by_cases hemp : t.data.isEmpty = true
    · have ht : t = "" := String.ext (by simpa using hemp)
      constructor
      · intro hne
        have hn : parseTimeToMinutesNum t = none := by
          unfold parseTimeToMinutesNum
          rw [if_pos hemp]
        exact absurd hn hne
      · rintro ⟨hne, -⟩
        exact absurd ht hne
    · have ht : t ≠ "" := by
        intro h
        rw [h] at hemp
        exact hemp rfl
      unfold parseTimeToMinutesNum jsNumberHourField jsNumberMinuteField
      rw [if_neg hemp]
      simp only []
      rcases hH : jsFiniteNumber ((splitOnChar ':' t.data).headD []) with _ | hv0 <;>
        rcases hM : ((splitOnChar ':' t.data).get? 1).bind jsFiniteNumber with _ | mv0
      · simp
      · simp
      · simp
      · dsimp only
        by_cases hcond : hv0 < 0 ∨ hv0 > 23 ∨ mv0 < 0 ∨ mv0 > 59
        · rw [if_pos hcond]
          constructor
          · intro hne
            exact absurd rfl hne
          · rintro ⟨-, hv, mv, heq1, heq2, h1, h2, h3, h4⟩
            injection heq1 with heq1
            injection heq2 with heq2
            subst heq1
            subst heq2
            rcases hcond with hc | hc | hc | hc <;> linarith
        · rw [if_neg hcond]
          push_neg at hcond
          constructor
          · intro _
            exact ⟨ht, hv0, mv0, rfl, rfl, hcond.1, hcond.2.1, hcond.2.2.1, hcond.2.2.2⟩
          · intro _
            simp
  · intro hv mv ht hhv hmv h1 h2 h3 h4
    unfold jsNumberHourField at hhv
    unfold jsNumberMinuteField at hmv
    have hemp : ¬ t.data.isEmpty = true := by
      intro h
      exact ht (String.ext (by simpa using h))
    unfold parseTimeToMinutesNum
    rw [if_neg hemp]
    simp only []
    rw [hhv, hmv]
    dsimp only
    rw [if_neg (by push_neg; exact ⟨h1, h2, h3, h4⟩)]
  · intro pre post ev hcat hbad
    have hbad2 : parseTimeToMinutes ev.startTime = none
        ∨ parseTimeToMinutes ev.endTime = none :=
      hbad.imp parseTimeToMinutesNum_none parseTimeToMinutesNum_none
    refine ⟨?_, ?_, ?_⟩
    · rw [normalizeSleepEvents_append_fst]
      simp only [normalizeSleepEvents_cons, normalizeSleepEvent_unparsed hcat hbad2]
      rfl
    · rw [normalizeSleepEvents_append_snd]
      simp only [normalizeSleepEvents_cons, normalizeSleepEvent_unparsed hcat hbad2]
      rfl
    · rw [extractPrevSegsEvents_append]
      simp only [extractPrevSegsEvents_cons, extractPrevDaySleepSegment_unparsed hcat hbad2]
      rfl

/-- C10 witness: "07:30" parses to 7*60 + 30 minutes and "24:00" is
rejected; the non-integer numerals JavaScript accepts parse exactly as the
source does ("1.5:30" to 120, "0x10:00" to 960, "7:3e1" to 450); and a
sleep event ending "24:00" is retained unmodified while contributing no
same-day and no previous-day segment. -/
theorem c10_witness :
    parseTimeToMinutesNum "07:30" = some (7 * 60 + 30)
    ∧ parseTimeToMinutesNum "24:00" = none
    ∧ parseTimeToMinutesNum "1.5:30" = some 120
    ∧ parseTimeToMinutesNum "0x10:00" = some 960
    ∧ parseTimeToMinutesNum "7:3e1" = some 450
    ∧ (normalizeSleepEvents
        [{ label := "Sleep", category := "sleep", startTime := "23:00",
           endTime := "24:00", notes := none }]).1
        = [{ label := "Sleep", category := "sleep", startTime := "23:00",
             endTime := "24:00", notes := none }]
    ∧ (normalizeSleepEvents
        [{ label := "Sleep", category := "sleep", startTime := "23:00",
           endTime := "24:00", notes := none }]).2 = []
    ∧ extractPrevSegsEvents
        [{ label := "Sleep", category := "sleep", startTime := "23:00",
           endTime := "24:00", notes := none }] = [] := by
  refine ⟨?_, (c10_time_parse_spec "24:00").2.2.1, ?_, ?_, ?_, ?_, ?_, ?_⟩
  · exact (c10_time_parse_spec "07:30").2.1 7 30 (by decide) (by decide)
      (by decide) (by decide) (by decide) (by decide) (by decide)
  · have h := (c10_time_parse_spec "1.5:30").2.1
      (((1 : ℕ) : ℚ) + ((5 : ℕ) : ℚ) / (10 : ℚ) ^ (1 : ℕ)) 30
      (by decide) rfl (by decide) (by norm_num) (by norm_num) (by decide) (by decide)
    rw [h]
    norm_num
  · have h := (c10_time_parse_spec "0x10:00").2.1 16 0
      (by decide) (by decide) (by decide) (by decide) (by decide) (by decide)
      (by decide)
    rw [h]
    norm_num
  · have h := (c10_time_parse_spec "7:3e1").2.1 7 (((3 : ℕ) : ℚ) * (10 : ℚ) ^ ((1 : ℤ)))
      (by decide) (by decide) rfl (by decide) (by decide) (by norm_num) (by norm_num)
    rw [h]
    norm_num
  · have h := ((c10_time_parse_spec "24:00").2.2.2 [] []
      { label := "Sleep", category := "sleep", startTime := "23:00",
        endTime := "24:00", notes := none } rfl
      (Or.inr ((c10_time_parse_spec "24:00").2.2.1))).1
    simpa using h
  · have h := ((c10_time_parse_spec "24:00").2.2.2 [] []
      { label := "Sleep", category := "sleep", startTime := "23:00",
        endTime := "24:00", notes := none } rfl
      (Or.inr ((c10_time_parse_spec "24:00").2.2.1))).2.1
    simpa using h
  · have h := ((c10_time_parse_spec "24:00").2.2.2 [] []
      { label := "Sleep", category := "sleep", startTime := "23:00",
        endTime := "24:00", notes := none } rfl
      (Or.inr ((c10_time_parse_spec "24:00").2.2.1))).2.2
    simpa using h
